import Mathlib

/-!
Verification of the rmox window-manager core against its specification.

This file shallowly embeds the relevant parts of the rmox source tree:

* geometry primitives (`Pos2`, `Vec2`, `Rectangle`, `Rotation`, `Side`)
  from `rmox-common/src/types/`;
* the surface description transform from
  `rmox-protocol/src/server_to_client.rs`;
* the framed length-prefixed message reader from `rmox-protocol/src/io.rs`;
* the multi-touch slot state machine from `rmox-input/src/touch/mod.rs`
  (the same logic also appears as `Input::process_touchscreen` in
  `rmox-input/src/lib.rs`);
* the keyboard key-processing pipeline from `rmox-input/src/keyboard/mod.rs`;
* the shell tree, focus-path repair, input routing and area reassignment
  from `wm/src/main.rs`.

Machine integers (`i32`, `u8`, `u16`) are embedded as `Int`/`Nat`; the
values manipulated by the embedded functions stay far from the overflow
boundaries, and `i32` division is modelled by `Int.tdiv` (truncation toward
zero, Rust's `/` semantics).  Fixed arrays of length 32 are embedded as
functions out of `Fin 32`, with the source's bounds-checked `get` modelled
by a `Nat` dispatch.  Rust `HashMap` lookups that the source `unwrap`s are
embedded as total functions, which is faithful on every input on which the
source does not panic.
-/

namespace Rmox

/-! ## Geometry primitives (`rmox-common/src/types`) -/

/-- Integer point, from `pos2.rs` (`i32` components embedded as `Int`). -/
structure Pos2 where
  x : Int
  y : Int
deriving DecidableEq, Repr

/-- Integer vector, from `vec2.rs`. -/
structure Vec2 where
  x : Int
  y : Int
deriving DecidableEq, Repr

/-- Constructor helper `pos2(x, y)`. -/
def pos2 (x y : Int) : Pos2 := ⟨x, y⟩

/-- Constructor helper `vec2(x, y)`. -/
def vec2 (x y : Int) : Vec2 := ⟨x, y⟩

/-- `Pos2::to_vec`. -/
def Pos2.to_vec (p : Pos2) : Vec2 := ⟨p.x, p.y⟩

/-- `Vec2::to_pos`. -/
def Vec2.to_pos (v : Vec2) : Pos2 := ⟨v.x, v.y⟩

/-- `Vec2::abs` (componentwise absolute value). -/
def Vec2.abs (v : Vec2) : Vec2 := ⟨|v.x|, |v.y|⟩

/-- Componentwise `Div<i32> for Vec2`; Rust `i32` division truncates toward
zero, which is `Int.tdiv`. -/
def Vec2.divScalar (v : Vec2) (s : Int) : Vec2 := ⟨v.x.tdiv s, v.y.tdiv s⟩

/-- `Rotation` from `rotation.rs`: clockwise quarter turns. -/
inductive Rotation where
  | none
  | rotate90
  | rotate180
  | rotate270
deriving DecidableEq, Repr

/-- `Rotation::transform_point`, from `rotation.rs` lines 20-33. -/
def Rotation.transform_point (r : Rotation) (point : Pos2) (container : Vec2) : Pos2 :=
  match r with
  | .none => point
  | .rotate90 => ⟨container.x - point.y, point.x⟩
  | .rotate180 => ⟨container.x - point.x, container.y - point.y⟩
  | .rotate270 => ⟨point.y, container.y - point.x⟩

/-- `Rotation::transform_size`, from `rotation.rs` lines 45-52. -/
def Rotation.transform_size (r : Rotation) (size : Vec2) : Vec2 :=
  match r with
  | .none => size
  | .rotate90 => ⟨size.y, -size.x⟩
  | .rotate180 => ⟨-size.x, -size.y⟩
  | .rotate270 => ⟨-size.y, size.x⟩

/-- `Rotation::inverse`, from `rotation.rs` lines 56-63, exactly as written
in the source (note the `None`/`Rotate180` arms). -/
def Rotation.inverse (r : Rotation) : Rotation :=
  match r with
  | .none => .rotate180
  | .rotate90 => .rotate270
  | .rotate180 => .none
  | .rotate270 => .rotate90

/-- Discriminant of `Rotation` (`rotation as usize`). -/
def Rotation.idx (r : Rotation) : Nat :=
  match r with
  | .none => 0
  | .rotate90 => 1
  | .rotate180 => 2
  | .rotate270 => 3

/-- `Side` from `side.rs`. -/
inductive Side where
  | top
  | right
  | bottom
  | left
deriving DecidableEq, Repr

/-- Discriminant of `Side` (`side as usize`). -/
def Side.idx (s : Side) : Nat :=
  match s with
  | .top => 0
  | .right => 1
  | .bottom => 2
  | .left => 3

/-- `Side::ALL[n % 4]`: the indexing used by `Side::rotate`. -/
def Side.ofIdx (n : Nat) : Side :=
  match n % 4 with
  | 0 => .top
  | 1 => .right
  | 2 => .bottom
  | _ => .left

/-- `Side::rotate`: `Side::ALL[(self as usize + rotation as usize) % 4]`. -/
def Side.rotate (s : Side) (r : Rotation) : Side :=
  Side.ofIdx (s.idx + r.idx)

/-- `Rectangle` from `rectangle.rs`. -/
structure Rectangle where
  origin : Pos2
  size : Vec2
deriving DecidableEq, Repr

/-- `Rectangle::ZERO`. -/
def Rectangle.ZERO : Rectangle := ⟨⟨0, 0⟩, ⟨0, 0⟩⟩

/-- `Rectangle::inset`. -/
def Rectangle.inset (r : Rectangle) (inset : Int) : Rectangle :=
  ⟨⟨r.origin.x + inset, r.origin.y + inset⟩, ⟨r.size.x - inset * 2, r.size.y - inset * 2⟩⟩

/-- `Side::take` from `side.rs` lines 22-50.  The source mutates `from` and
returns the slice; here the result is `(slice, remainder)`. -/
def Side.take (s : Side) (amount : Int) (r : Rectangle) : Rectangle × Rectangle :=
  match s with
  | .top =>
    (⟨r.origin, ⟨r.size.x, amount⟩⟩,
     ⟨⟨r.origin.x, r.origin.y + amount⟩, ⟨r.size.x, r.size.y - amount⟩⟩)
  | .right =>
    (⟨⟨r.origin.x + r.size.x - amount, r.origin.y⟩, ⟨amount, r.size.y⟩⟩,
     ⟨r.origin, ⟨r.size.x - amount, r.size.y⟩⟩)
  | .bottom =>
    (⟨⟨r.origin.x, r.origin.y + r.size.y - amount⟩, ⟨r.size.x, amount⟩⟩,
     ⟨r.origin, ⟨r.size.x, r.size.y - amount⟩⟩)
  | .left =>
    (⟨r.origin, ⟨amount, r.size.y⟩⟩,
     ⟨⟨r.origin.x + amount, r.origin.y⟩, ⟨r.size.x - amount, r.size.y⟩⟩)

/-! ## Surface description (`rmox-protocol/src/server_to_client.rs`) -/

/-- `SurfaceDescription` (scale is a `u8` in the source, embedded as `Nat`). -/
structure SurfaceDescription where
  base_rect : Rectangle
  rotation : Rotation
  scale : Nat
  visible : Bool
deriving DecidableEq, Repr

/-- `SurfaceDescription::size`, from `server_to_client.rs` lines 44-49:
`self.rotation.inverse().transform_size(base_rect.size).abs() / scale`. -/
def SurfaceDescription.size (d : SurfaceDescription) : Vec2 :=
  let size := d.base_rect.size
  let size := (d.rotation.inverse.transform_size size).abs
  size.divScalar (Int.ofNat d.scale)

/-- Reported size as the specification describes it (claim C7): swap the
components of `base_rect.size` for `Rotate90`/`Rotate270`, keep them for
`None`/`Rotate180`, make them non-negative, then divide by `scale`. -/
def SurfaceDescription.sizeSpec (d : SurfaceDescription) : Vec2 :=
  let s := d.base_rect.size
  let s : Vec2 :=
    match d.rotation with
    | .rotate90 | .rotate270 => ⟨s.y, s.x⟩
    | .none | .rotate180 => s
  s.abs.divScalar (Int.ofNat d.scale)

/-! ## Framed message transport (`rmox-protocol/src/io.rs`)

The reader is a poll-based state machine `{Start, Size(u32)}` holding an
accumulation buffer.  One iteration of the `poll_next` loop body performs
one `poll_read` on the underlying socket and either yields an item
(`Poll::Ready(Some(..))`), ends the stream (`Poll::Ready(None)`), or
continues the loop with an updated state and buffer.  Bytes are embedded as
`Nat`, the underlying read as a `ReadOutcome` (the new bytes appended by
`poll_read`, or an I/O error), and CBOR decoding is abstracted to the raw
payload bytes (no claim concerns the decoder). -/

/-- Error kinds distinguished by `Stream::poll_next`. -/
inductive IoErrorKind where
  | connectionReset
  | unexpectedEof
  | other
deriving DecidableEq, Repr

/-- `ReadState` from `io.rs` lines 25-28 (the `u32` frame length as `Nat`). -/
inductive ReadState where
  | start
  | size (n : Nat)
deriving DecidableEq, Repr

/-- Result of one `poll_read` call on the underlying socket: the newly
filled bytes, or an error. -/
inductive ReadOutcome where
  | ok (newBytes : List Nat)
  | ioError (kind : IoErrorKind)
deriving DecidableEq, Repr

/-- An `Ok(payload)` or `Err(kind)` item as yielded by the stream (the
payload standing in for the decoded message). -/
inductive StreamItem where
  | ok (payload : List Nat)
  | ioError (kind : IoErrorKind)
deriving DecidableEq, Repr

/-- Result of one iteration of the `poll_next` loop body: either the poll
returns (`yield`, carrying `none` for end of stream or `some` item/error,
plus the state and buffer left behind), or the loop continues. -/
inductive PollStep where
  | yield (item : Option StreamItem) (st : ReadState) (buf : List Nat)
  | next (st : ReadState) (buf : List Nat)
deriving DecidableEq, Repr

/-- `u32::from_le_bytes` on the four accumulated header bytes. -/
def u32FromLeBytes (b : List Nat) : Nat :=
  b.getD 0 0 + b.getD 1 0 * 256 + b.getD 2 0 * 65536 + b.getD 3 0 * 16777216

/-- One iteration of `Stream::poll_next` (`io.rs` lines 84-139).  In
`Start`, a read error of kind `ConnectionReset` ends the stream; zero new
bytes end the stream; four accumulated bytes decode the length and continue
in `Size`.  In `Size(n)`, any read error is yielded; zero new bytes yield
`UnexpectedEof`; a full payload is yielded and the state returns to
`Start`. -/
def pollStep (st : ReadState) (buf : List Nat) (r : ReadOutcome) : PollStep :=
  match st, r with
  | .start, .ioError k =>
    if k = .connectionReset then .yield none .start buf
    else .yield (some (.ioError k)) .start buf
  | .start, .ok newBytes =>
    let filled := buf ++ newBytes
    if newBytes.isEmpty then .yield none .start buf
    else if 4 ≤ filled.length then .next (.size (u32FromLeBytes (filled.take 4))) []
    else .next .start filled
  | .size n, .ioError k => .yield (some (.ioError k)) (.size n) buf
  | .size n, .ok newBytes =>
    let filled := buf ++ newBytes
    if newBytes.isEmpty then .yield (some (.ioError .unexpectedEof)) (.size n) buf
    else if n ≤ filled.length then .yield (some (.ok filled)) .start []
    else .next (.size n) filled

/-! ## Multi-touch slot state machine (`rmox-input/src/touch/mod.rs`)

`handle_events` (lines 104-207) filters a sync frame of evdev events into
`InternalEvent`s, folds them over the slot state plus a per-frame change
tracker, and emits one `TouchEvent` per slot whose change is `Some`.  The
same logic appears verbatim as `Input::process_touchscreen` in
`rmox-input/src/lib.rs` lines 660-721.  The 32-entry slot array is a
function out of `Fin 32`; `states.get_mut(index)` (which fails exactly when
the current slot is out of bounds) is `TouchStates.current?`. -/

namespace Touch

/-- `TouchState` (`u16`/`u8` axes as `Nat`, `i8` orientation as `Int`).
`deriving Inhabited` gives the all-zero `TouchState::default`. -/
structure TouchState where
  x : Nat
  y : Nat
  pressure : Nat
  touch_major : Nat
  touch_minor : Nat
  orientation : Int
deriving DecidableEq, Repr, Inhabited

/-- Touch `Phase` (the source's `End` variant is `end'` here, as `end` is a
reserved word). -/
inductive Phase where
  | start
  | change
  | end'
deriving DecidableEq, Repr

/-- `InternalEvent` from `handle_events`: the decoded subset of absolute
axes.  `TrackingId` values other than `-1` are filtered out by the source
before this point, so `touchEnd` is the only tracking-id constructor. -/
inductive InternalTouchscreenEvent where
  | slot (v : Nat)
  | touchEnd
  | positionX (v : Nat)
  | positionY (v : Nat)
  | pressure (v : Nat)
  | touchMajor (v : Nat)
  | touchMinor (v : Nat)
  | orientation (v : Int)
deriving DecidableEq, Repr

/-- Is this event one of the six axis-update events (neither `Slot` nor
`TouchEnd`)? -/
def InternalTouchscreenEvent.isAxis : InternalTouchscreenEvent → Bool
  | .slot _ => false
  | .touchEnd => false
  | _ => true

/-- Is this event a `Slot` selection? -/
def InternalTouchscreenEvent.isSlot : InternalTouchscreenEvent → Bool
  | .slot _ => true
  | _ => false

/-- The persistent touch state: current slot plus the 32-entry
`[Option<TouchState>; 32]` array. -/
structure TouchStates where
  slot : Nat
  states : Fin 32 → Option TouchState

/-- `State::current`: `states.get_mut(usize::from(self.slot))`, which is
`Some` exactly when the current slot is in bounds. -/
def TouchStates.current? (ts : TouchStates) : Option (Fin 32) :=
  if h : ts.slot < 32 then some ⟨ts.slot, h⟩ else none

/-- State threaded through one sync frame: the persistent slot states plus
the per-frame change tracker (`let mut changes = [None; 32]`). -/
structure FrameState where
  touch : TouchStates
  changes : Fin 32 → Option Phase

/-- The `state!()` macro body for an axis update writing field `f`: if the
current slot is out of bounds, skip (`continue`); otherwise set the change
to `Start` when the state is absent, else promote it to `Change` unless it
is already `Start`, then materialize the state with `default` and update
the field. -/
def applyAxis (f : TouchState → TouchState) (fs : FrameState) : FrameState :=
  match fs.touch.current? with
  | none => fs
  | some i =>
    let st := fs.touch.states i
    let change := fs.changes i
    let change' : Option Phase :=
      if st.isNone then some .start
      else if change ≠ some .start then some .change
      else change
    { touch := { fs.touch with states := Function.update fs.touch.states i (some (f (st.getD default))) }
      changes := Function.update fs.changes i change' }

/-- One event of the frame loop in `handle_events` lines 169-194. -/
def stepEvent (fs : FrameState) : InternalTouchscreenEvent → FrameState
  | .slot v => { fs with touch := { fs.touch with slot := v } }
  | .touchEnd =>
    match fs.touch.current? with
    | none => fs
    | some i =>
      let change' : Option Phase :=
        if fs.changes i = some .start then none else some .end'
      { touch := { fs.touch with states := Function.update fs.touch.states i none }
        changes := Function.update fs.changes i change' }
  | .positionX v => applyAxis (fun s => { s with x := v }) fs
  | .positionY v => applyAxis (fun s => { s with y := v }) fs
  | .pressure v => applyAxis (fun s => { s with pressure := v }) fs
  | .touchMajor v => applyAxis (fun s => { s with touch_major := v }) fs
  | .touchMinor v => applyAxis (fun s => { s with touch_minor := v }) fs
  | .orientation v => applyAxis (fun s => { s with orientation := v }) fs

/-- Fold of the frame's events. -/
def processEvents : FrameState → List InternalTouchscreenEvent → FrameState
  | fs, [] => fs
  | fs, e :: rest => processEvents (stepEvent fs e) rest

/-- `touch::Event {touch_id: Id(slot), phase}` as emitted at the end of the
frame (the slot index as a `Nat`). -/
structure TouchEvent where
  touch_id : Nat
  phase : Phase
deriving DecidableEq, Repr

/-- End-of-frame emission: one event per slot whose change is `Some`, in
ascending slot order (`changes.into_iter().enumerate()`). -/
def emitChanges (changes : Fin 32 → Option Phase) : List TouchEvent :=
  (List.finRange 32).filterMap fun i => (changes i).map fun p => ⟨i.val, p⟩

/-- `handle_events` / `Input::process_touchscreen` for one sync frame:
returns the updated slot states and the emitted events. -/
def process_touchscreen (ts : TouchStates) (events : List InternalTouchscreenEvent) :
    TouchStates × List TouchEvent :=
  let fs := processEvents ⟨ts, fun _ => none⟩ events
  (fs.touch, emitChanges fs.changes)

/-- Did a `TouchEnd` event get processed for slot `s` during the frame?
`slot` tracks the current slot (initially the persistent one) through the
event list, exactly as the fold does. -/
def endsDuring : Nat → List InternalTouchscreenEvent → Fin 32 → Bool
  | _, [], _ => false
  | slot, e :: rest, s =>
    match e with
    | .slot v => endsDuring v rest s
    | .touchEnd => (slot == s.val) || endsDuring slot rest s
    | _ => endsDuring slot rest s

/-- Invariant threaded through a frame, relative to the slot states at
frame entry (`entry`) and a set `g` of slots for which a `TouchEnd` has
already been processed this frame: a slot whose state is absent, or whose
change is `Start`, was either empty at entry or has seen a `TouchEnd`; a
slot whose change is `End` has seen a `TouchEnd`. -/
def FrameInv (entry : Fin 32 → Option TouchState) (g : Fin 32 → Bool)
    (fs : FrameState) : Prop :=
  ∀ s : Fin 32,
    (fs.touch.states s = Option.none → entry s = Option.none ∨ g s = true) ∧
    (fs.changes s = some .start → entry s = Option.none ∨ g s = true) ∧
    (fs.changes s = some .end' → g s = true)

/-- The all-empty persistent touch state (`TouchStates::default`). -/
def emptyTouchStates : TouchStates := ⟨0, fun _ => none⟩

/-- Persistent state whose slot 0 is active, used by concrete instances. -/
def slot0Active : TouchStates :=
  ⟨0, fun i => if i.val = 0 then some default else none⟩

/-- Entry state for the C3 counterexample: current slot 0, slot 0 active,
slot 1 empty. -/
def c3entry : TouchStates := slot0Active

/-- Frame for the C3 counterexample: on active slot 0, a `TouchEnd`
followed by an axis update; then a `TouchEnd` on the empty slot 1. -/
def c3frame : List InternalTouchscreenEvent :=
  [.touchEnd, .positionX 5, .slot 1, .touchEnd]

end Touch

/-! ## Keyboard pipeline (`rmox-input/src/keyboard/mod.rs`)

`State::process_key` (lines 114-157) resolves a scancode through the
keyboard layout, updates the held-keys map and the persistent modifier set,
and enqueues a `KeyEvent` plus possibly a `Text` event.  The `Scancode` and
`Key` enums are large static tables whose contents the claims quantify
over, so they are type parameters here; the held-keys array indexed by
scancode is a function, and the `Layout` trait is a structure of its two
methods (`scancode_to_key` returns the key together with the possibly
consumed modifier set, standing for the `&mut Modifiers` argument). -/

namespace Keyboard

/-- `Modifier` from `modifiers.rs`. -/
inductive Modifier where
  | ctrl
  | alt
  | opt
  | altOpt
  | leftShift
  | rightShift
  | capsLock
deriving DecidableEq, Repr

/-- `Modifier::is_toggle`: only `CapsLock` toggles. -/
def Modifier.is_toggle : Modifier → Bool
  | .capsLock => true
  | _ => false

/-- `Modifiers`: the `EnumSet<Modifier>` as one membership flag per
modifier. -/
structure Modifiers where
  ctrl : Bool
  alt : Bool
  opt : Bool
  altOpt : Bool
  leftShift : Bool
  rightShift : Bool
  capsLock : Bool
deriving DecidableEq, Repr

/-- `Modifiers::none`. -/
def Modifiers.noneSet : Modifiers := ⟨false, false, false, false, false, false, false⟩

/-- Membership test (`Modifiers::contains` at a single modifier). -/
def Modifiers.containsM (m : Modifiers) : Modifier → Bool
  | .ctrl => m.ctrl
  | .alt => m.alt
  | .opt => m.opt
  | .altOpt => m.altOpt
  | .leftShift => m.leftShift
  | .rightShift => m.rightShift
  | .capsLock => m.capsLock

/-- Set one membership flag (helper for the single-modifier set ops). -/
def Modifiers.setM (m : Modifiers) (x : Modifier) (b : Bool) : Modifiers :=
  match x with
  | .ctrl => { m with ctrl := b }
  | .alt => { m with alt := b }
  | .opt => { m with opt := b }
  | .altOpt => { m with altOpt := b }
  | .leftShift => { m with leftShift := b }
  | .rightShift => { m with rightShift := b }
  | .capsLock => { m with capsLock := b }

/-- `modifiers += modifier` (union with a single modifier). -/
def Modifiers.add (m : Modifiers) (x : Modifier) : Modifiers := m.setM x true

/-- `modifiers -= modifier` (difference with a single modifier). -/
def Modifiers.sub (m : Modifiers) (x : Modifier) : Modifiers := m.setM x false

/-- `modifiers ^= modifier` (symmetric difference with a single modifier). -/
def Modifiers.xorM (m : Modifiers) (x : Modifier) : Modifiers :=
  m.setM x (!m.containsM x)

/-- `Modifiers::shift(alphabet)`: `(LeftShift || RightShift) ^ (alphabet &&
CapsLock)`. -/
def Modifiers.shift (m : Modifiers) (alphabet : Bool) : Bool :=
  (m.leftShift || m.rightShift) ^^ (alphabet && m.capsLock)

/-- `Modifiers::opt`. -/
def Modifiers.optB (m : Modifiers) : Bool := m.opt

/-- `KeyEventKind` (constructor `repeat'` stands for the source's `Repeat`,
a reserved word here). -/
inductive KeyEventKind where
  | release
  | press
  | repeat'
deriving DecidableEq, Repr

/-- `KeyEventKind::press`: a logical activation (`Press` or `Repeat`). -/
def KeyEventKind.isPress : KeyEventKind → Bool
  | .release => false
  | .press | .repeat' => true

/-- `KeyEventKind::release`: `!self.press()`. -/
def KeyEventKind.isRelease (k : KeyEventKind) : Bool := !k.isPress

/-- `Resolved` from `layout.rs`. -/
inductive Resolved where
  | text (s : String)
  | modifier (m : Modifier)
  | noneOfThese
deriving DecidableEq, Repr

/-- The `Layout` trait: `scancode_to_key` (returning the resolved key and
the remaining, possibly consumed, modifier snapshot) and `resolve`. -/
structure KeyboardLayout (Scancode Key : Type) where
  scancode_to_key : Scancode → Modifiers → Option Key × Modifiers
  resolve : Key → Modifiers → Resolved

/-- Keyboard `State`: the persistent modifier set and the held-keys map
(`Some` iff the scancode's physical key is depressed). -/
structure KeyboardState (Scancode Key : Type) where
  modifiers : Modifiers
  held_keys : Scancode → Option Key

/-- Events enqueued by `process_key` (the `Key` and `Text` constructors of
the input `Event` enum). -/
inductive KbEvent (Scancode Key : Type) where
  | key (scancode : Scancode) (key : Option Key) (event : KeyEventKind) (modifiers : Modifiers)
  | text (s : String)
deriving DecidableEq

/-- Is this a `Text` event? -/
def KbEvent.isText {Scancode Key : Type} : KbEvent Scancode Key → Bool
  | .text _ => true
  | _ => false

/-- `State::update_modifier` (lines 96-112): toggle keys XOR on `Press`;
momentary keys set on `Press`, clear on `Release`, no-op on `Repeat`. -/
def update_modifier (m : Modifiers) (modifier : Modifier) (event : KeyEventKind) : Modifiers :=
  if modifier.is_toggle then
    if event = .press then m.xorM modifier else m
  else
    match event with
    | .release => m.sub modifier
    | .press => m.add modifier
    | .repeat' => m

/-- `State::process_key` (lines 114-157): on release, report the key stored
in `held_keys` at press time and clear the entry; otherwise query the
layout (which may consume modifiers) and store the result.  Enqueue the
`KeyEvent`, then resolve the key: a `Modifier` updates the persistent set,
a `Text` is enqueued only when `kind.press()`. -/
def process_key {Scancode Key : Type} [DecidableEq Scancode]
    (layout : KeyboardLayout Scancode Key) (st : KeyboardState Scancode Key)
    (scancode : Scancode) (kind : KeyEventKind) :
    KeyboardState Scancode Key × List (KbEvent Scancode Key) :=
  let resolved : Option Key × Modifiers × (Scancode → Option Key) :=
    if kind.isRelease then
      (st.held_keys scancode, st.modifiers, Function.update st.held_keys scancode none)
    else
      let kp := layout.scancode_to_key scancode st.modifiers
      (kp.1, kp.2, Function.update st.held_keys scancode kp.1)
  let key := resolved.1
  let these_modifiers := resolved.2.1
  let held := resolved.2.2
  let ev1 : KbEvent Scancode Key := .key scancode key kind these_modifiers
  match key with
  | none => ({ modifiers := st.modifiers, held_keys := held }, [ev1])
  | some k =>
    match layout.resolve k these_modifiers with
    | .modifier m =>
      ({ modifiers := update_modifier st.modifiers m kind, held_keys := held }, [ev1])
    | .text t =>
      if kind.isPress then ({ modifiers := st.modifiers, held_keys := held }, [ev1, .text t])
      else ({ modifiers := st.modifiers, held_keys := held }, [ev1])
    | .noneOfThese => ({ modifiers := st.modifiers, held_keys := held }, [ev1])

/-- A one-key layout over trivial scancode/key types, whose single key
always resolves to the text `"a"`; used to instantiate the C9 theorem. -/
def unitLayout : KeyboardLayout Unit Unit :=
  { scancode_to_key := fun _ m => (some (), m)
    resolve := fun _ _ => .text "a" }

/-- A concrete keyboard state for the C9 instance: no modifiers, the single
key held. -/
def unitKeyboardState : KeyboardState Unit Unit :=
  { modifiers := Modifiers.noneSet, held_keys := fun _ => some () }

end Keyboard

/-! ## Shell tree and surface manager (`wm/src/main.rs`)

The shell owns anchored layers, an optional wallpaper and an optional root
container of split containers; `keyboard_focused_container` is a path of
child indices from the root.  Surface and task ids are embedded as `Nat`,
the path's `Vec<u8>` as `List Nat`, and the surfaces map as a total
function (the source `unwrap`s every lookup). -/

namespace Wm

/-- `ContainerKind`. -/
inductive ContainerKind where
  | horizontal
  | vertical
deriving DecidableEq, Repr

/-- `ShellNode`: a container (kind plus non-empty children, the emptiness
invariant being maintained by pruning) or a surface leaf. -/
inductive ShellNode where
  | container (kind : ContainerKind) (children : List ShellNode)
  | surface (id : Nat)

mutual
/-- Decidable equality for shell nodes (the nested `List` blocks the
automatic derivation). -/
def ShellNode.decEq : (a b : ShellNode) → Decidable (a = b)
  | .surface i, .surface j =>
    match Nat.decEq i j with
    | isTrue h => isTrue (by rw [h])
    | isFalse h => isFalse (by intro hh; injection hh; contradiction)
  | .surface _, .container _ _ => isFalse (by intro h; exact ShellNode.noConfusion h)
  | .container _ _, .surface _ => isFalse (by intro h; exact ShellNode.noConfusion h)
  | .container k1 c1, .container k2 c2 =>
    match instDecidableEqContainerKind k1 k2 with
    | isFalse h => isFalse (by intro hh; injection hh; contradiction)
    | isTrue h =>
      match ShellNode.listDecEq c1 c2 with
      | isTrue h2 => isTrue (by rw [h, h2])
      | isFalse h2 => isFalse (by intro hh; injection hh; contradiction)

/-- Decidable equality for lists of shell nodes. -/
def ShellNode.listDecEq : (a b : List ShellNode) → Decidable (a = b)
  | [], [] => isTrue rfl
  | [], _ :: _ => isFalse (by intro h; exact List.noConfusion h)
  | _ :: _, [] => isFalse (by intro h; exact List.noConfusion h)
  | a :: as, b :: bs =>
    match ShellNode.decEq a b with
    | isFalse h => isFalse (by intro hh; injection hh; contradiction)
    | isTrue h =>
      match ShellNode.listDecEq as bs with
      | isTrue h2 => isTrue (by rw [h, h2])
      | isFalse h2 => isFalse (by intro hh; injection hh; contradiction)
end

instance : DecidableEq ShellNode := ShellNode.decEq

/-- `Container::fix_path` / `ShellNode::fix_path` (`wm/src/main.rs` lines
56-73 and 116-123), exactly as the source performs it: at a surface,
truncate the path to `i + 1` entries; at a container, read `path[i]`
(pushing `0` if the path is too short), clamp an out-of-range index to
`children.len() - 1` (taking the last child), and recurse at `i + 1`.
An empty container makes the source panic (`children.len() - 1` underflow,
`last().unwrap()`); here the path is returned unchanged in that case. -/
def ShellNode.fix_path : ShellNode → List Nat → Nat → List Nat
  | .surface _, path, i => path.take (i + 1)
  | .container _ children, path, i =>
    let pr : Nat × List Nat :=
      match path.get? i with
      | some idx => (idx, path)
      | none => (0, path ++ [0])
    match hg : children.get? pr.1 with
    | some child => child.fix_path pr.2 (i + 1)
    | none =>
      let path2 := pr.2.set i (children.length - 1)
      match hl : children.get? (children.length - 1) with
      | some child => child.fix_path path2 (i + 1)
      | none => path2
termination_by n _ _ => sizeOf n
decreasing_by
  · have h1 : sizeOf child < sizeOf children := List.sizeOf_lt_of_mem (List.get?_mem hg)
    simp only [ShellNode.container.sizeOf_spec]
    omega
  · have h1 : sizeOf child < sizeOf children := List.sizeOf_lt_of_mem (List.get?_mem hl)
    simp only [ShellNode.container.sizeOf_spec]
    omega

/-- `Container::get_path` (`wm/src/main.rs` lines 75-86) on the container's
children: an empty path is "not deep enough" (`None`); otherwise index into
the children (the source indexes unchecked and would panic out of bounds;
modelled as `None`), recursing through containers, and accepting a surface
only when the rest of the path is empty. -/
def containerGetPath : List ShellNode → List Nat → Option ShellNode
  | _, [] => none
  | children, index :: rest =>
    match children.get? index with
    | none => none
    | some (.container _ ch) => containerGetPath ch rest
    | some (.surface id) => if rest.isEmpty then some (.surface id) else none

mutual
/-- `ShellNode::retain` (`wm/src/main.rs` lines 109-114): `Some` when the
node is kept.  Surfaces are kept iff the predicate holds; containers retain
their children recursively and are kept iff non-empty afterwards. -/
def ShellNode.retain (f : Nat → Bool) : ShellNode → Option ShellNode
  | .surface id => if f id then some (.surface id) else none
  | .container k children =>
    let ch := retainList f children
    if ch.isEmpty then none else some (.container k ch)

/-- `Vec::retain_mut` over shell children, preserving order. -/
def retainList (f : Nat → Bool) : List ShellNode → List ShellNode
  | [] => []
  | c :: rest =>
    match ShellNode.retain f c with
    | some c' => c' :: retainList f rest
    | none => retainList f rest
end

/-- `ShellLayer`: anchor side (already rotated by the global rotation at
creation), band size, owning surface. -/
structure ShellLayer where
  anchor : Side
  size : Int
  surface : Nat
deriving DecidableEq, Repr

/-- `Shell`: layers, optional root container (kind and children), optional
wallpaper surface. -/
structure Shell where
  layers : List ShellLayer
  root : Option (ContainerKind × List ShellNode)
  wallpaper : Option Nat
deriving DecidableEq

/-- `Shell::get_path`: resolve a focus path against the root. -/
def Shell.get_path (sh : Shell) (path : List Nat) : Option ShellNode :=
  match sh.root with
  | none => none
  | some (_, children) => containerGetPath children path

/-- `Shell::fix_path` (`wm/src/main.rs` lines 149-157): with no root the
path becomes `None`; with a root, a `Some` path is repaired in place (a
`None` path stays `None`). -/
def Shell.fix_path (sh : Shell) (path : Option (List Nat)) : Option (List Nat) :=
  match sh.root with
  | some (k, children) =>
    match path with
    | some p => some (ShellNode.fix_path (.container k children) p 0)
    | none => none
  | none => none

/-- `Shell::retain` (`wm/src/main.rs` lines 134-142): filter layers, retain
the root (dropping it when emptied), filter the wallpaper. -/
def Shell.retain (sh : Shell) (f : Nat → Bool) : Shell :=
  { layers := sh.layers.filter fun l => f l.surface
    root :=
      match sh.root with
      | none => none
      | some (k, children) =>
        let ch := retainList f children
        if ch.isEmpty then none else some (k, ch)
    wallpaper :=
      match sh.wallpaper with
      | some w => if f w then some w else none
      | none => none }

/-! ### Input routing (`Manager::handle_input`, `wm/src/main.rs` 504-582)

The routing decision is embedded as a function from the manager's relevant
state and the incoming input event to a `RouteAction`: `send` (a
`Surface { id, event: Input(..) }` event on the owning task's channel),
`removeSurface` (the hotkey path), `drop` (the source's early `return`s),
or `panic` (an `unwrap` failure on the surfaces/tasks maps).  The `Key`
enum is a type parameter with the `Key::X` comparison abstracted as a
predicate; the payload enrichment (`touch_state`/`stylus_state` snapshots)
does not affect the routing decision. -/

/-- `KeyEvent` fields consulted by the manager (the scancode as `Nat`). -/
structure WmKeyEvent (K : Type) where
  scancode : Nat
  key : Option K
  event : Keyboard.KeyEventKind
  modifiers : Keyboard.Modifiers

/-- Stylus phases from `rmox-input/src/stylus`. -/
inductive StylusPhase where
  | hover
  | touch
  | change
  | lift
  | leave
deriving DecidableEq, Repr

/-- The semantic input events routed by `Manager::handle_input`. -/
inductive WmInputEvent (K : Type) where
  | key (e : WmKeyEvent K)
  | text (s : String)
  | button (pressed : Bool)
  | touch (e : Touch.TouchEvent)
  | stylus (p : StylusPhase)
  | devicePresence

/-- The manager state consulted by input routing: the shell, the focus
path, and the owning task of each surface (`None` when the surface id is
not in the map). -/
structure RoutingState (K : Type) where
  shell : Shell
  keyboard_focused_container : Option (List Nat)
  surfaceTask : Nat → Option Nat

/-- `Manager::focused_surface` (lines 491-502): resolve the focus path and
answer `Some` only when it lands on a surface node. -/
def focused_surface {K : Type} (m : RoutingState K) : Option Nat :=
  match m.keyboard_focused_container with
  | none => none
  | some path =>
    match m.shell.get_path path with
    | some (.surface id) => some id
    | _ => none

/-- Routing outcome of `Manager::handle_input`. -/
inductive RouteAction where
  | send (task : Nat) (surface : Nat)
  | removeSurface (surface : Nat)
  | drop
  | panic
deriving DecidableEq, Repr

/-- `Manager::handle_input` (lines 504-582), reduced to its routing
decision.  First the hotkey interception: a pressed `Key::X` with `Opt` and
`Shift` held, with a focused surface, removes that surface.  Then the
routing match: `Key`/`Text`/`Button` go to the focused surface (dropped
when none); `Touch`/`Stylus` return without routing (the documented TODO);
`DevicePresence` returns.  A routed event is sent on the channel of the
task owning the focused surface. -/
def handle_input {K : Type} (isX : K → Bool) (m : RoutingState K)
    (event : WmInputEvent K) : RouteAction :=
  let hotkey : Option Nat :=
    match event with
    | .key e =>
      if e.event.isPress then
        match focused_surface m with
        | some sid =>
          match e.key with
          | some k =>
            if isX k && e.modifiers.optB && e.modifiers.shift false then some sid else none
          | none => none
        | none => none
      else none
    | _ => none
  match hotkey with
  | some sid => .removeSurface sid
  | none =>
    match event with
    | .key _ | .text _ | .button _ =>
      match focused_surface m with
      | none => .drop
      | some sid =>
        match m.surfaceTask sid with
        | some task => .send task sid
        | none => .panic
    | .touch _ | .stylus _ => .drop
    | .devicePresence => .drop

/-! ### Area reassignment (`Manager::reassign_areas`, `wm/src/main.rs`
322-379, with `ManagerState::reassign_container`/`reassign_node`, lines
185-227)

One completed pass of the reassignment loop: layers consume bands from the
working rectangle in order, the wallpaper receives the residue (visible iff
there is no root), and the root container recursively subdivides the
residue.  Each write compares the newly computed value with the stored one
and records the surface as dirty on a difference; the manager then sends
one `Description` event per dirty surface.  The pass is embedded as a pure
function returning the updated surfaces map and the dirty list (the no-send-
failure case, i.e. a completed pass). -/

/-- `Surface`: stored description plus owning task. -/
structure Surface where
  description : SurfaceDescription
  task : Nat
deriving DecidableEq, Repr

/-- `ManagerConfig`. -/
structure ManagerConfig where
  global_rotation : Rotation
  inset : Int
deriving DecidableEq, Repr

/-- `Framebuffer::SIZE` (1404 x 1872, from `rmox-fb`). -/
def fbSize : Vec2 := ⟨1404, 1872⟩

/-- The split side of a container (`reassign_container`, lines 192-196):
`Horizontal → Left`, `Vertical → Top`, rotated by the global rotation. -/
def container_child_side (cfg : ManagerConfig) (kind : ContainerKind) : Side :=
  (match kind with
    | .horizontal => Side.left
    | .vertical => Side.top).rotate cfg.global_rotation

/-- The equal per-child share of the working rectangle along the split side
(`reassign_container`, lines 197-200); `i32` division truncates toward
zero. -/
def container_child_size (side : Side) (rect : Rectangle) (len : Nat) : Int :=
  (match side with
    | .top | .bottom => rect.size.y
    | .left | .right => rect.size.x).tdiv (len : Int)

mutual
/-- `ManagerState::reassign_node` (lines 209-227): a surface stores the new
rectangle and is dirty when it differs from the stored one; a container
recurses via `reassign_container`: split side from the kind rotated by the
global rotation, equal share per child, the last child absorbing the
remainder. -/
def reassign_node (cfg : ManagerConfig) :
    ShellNode → Rectangle → (Nat → Surface) → (Nat → Surface) × List Nat
  | .surface id, rect, surfaces =>
    let s := surfaces id
    let dirty := if s.description.base_rect ≠ rect then [id] else []
    (Function.update surfaces id
      { s with description := { s.description with base_rect := rect } }, dirty)
  | .container kind children, rect, surfaces =>
    reassign_children cfg (container_child_side cfg kind)
      (container_child_size (container_child_side cfg kind) rect children.length)
      children rect surfaces

/-- The child loop of `reassign_container` (lines 202-206): every child but
the last takes `child_size` from the working rectangle; the last child
receives the remainder.  An empty container makes the source panic (index
underflow); here it is the identity. -/
def reassign_children (cfg : ManagerConfig) (side : Side) (childSize : Int) :
    List ShellNode → Rectangle → (Nat → Surface) → (Nat → Surface) × List Nat
  | [], _, surfaces => (surfaces, [])
  | [last], rect, surfaces => reassign_node cfg last rect surfaces
  | child :: next :: rest, rect, surfaces =>
    let pr := side.take childSize rect
    let r1 := reassign_node cfg child pr.1 surfaces
    let r2 := reassign_children cfg side childSize (next :: rest) pr.2 r1.1
    (r2.1, r1.2 ++ r2.2)
end

/-- The layer loop of `reassign_areas` (lines 330-339): each layer takes
its band from its anchor, is marked dirty when the band differs from its
stored rectangle, and stores the band.  Returns the surfaces, the residual
rectangle and the dirty list. -/
def reassign_layers :
    List ShellLayer → Rectangle → (Nat → Surface) → (Nat → Surface) × Rectangle × List Nat
  | [], rect, surfaces => (surfaces, rect, [])
  | layer :: rest, rect, surfaces =>
    let pr := layer.anchor.take layer.size rect
    let s := surfaces layer.surface
    let dirty := if pr.1 ≠ s.description.base_rect then [layer.surface] else []
    let surfaces1 := Function.update surfaces layer.surface
      { s with description := { s.description with base_rect := pr.1 } }
    let r := reassign_layers rest pr.2 surfaces1
    (r.1, r.2.1, dirty ++ r.2.2)

mutual
/-- Surface ids appearing in a shell node, in traversal order. -/
def nodeIds : ShellNode → List Nat
  | .surface id => [id]
  | .container _ children => listIds children

/-- Surface ids of a child list. -/
def listIds : List ShellNode → List Nat
  | [] => []
  | c :: rest => nodeIds c ++ listIds rest
end

/-- The wallpaper step of `reassign_areas` (lines 341-349): the wallpaper,
when present, receives the residual rectangle and is visible iff there is
no root; it is dirty when its whole description changed. -/
def wallpaper_step (wall : Option Nat) (rootIsNone : Bool) (rect1 : Rectangle)
    (surfaces : Nat → Surface) : (Nat → Surface) × List Nat :=
  match wall with
  | none => (surfaces, [])
  | some w =>
    let s := surfaces w
    let old := s.description
    let newDesc := { old with base_rect := rect1, visible := rootIsNone }
    let dirty := if old ≠ newDesc then [w] else []
    (Function.update surfaces w { s with description := newDesc }, dirty)

/-- The root step of `reassign_areas` (lines 351-355): the root container,
when present, subdivides the residual rectangle. -/
def root_step (cfg : ManagerConfig) (root : Option (ContainerKind × List ShellNode))
    (rect1 : Rectangle) (surfaces : Nat → Surface) : (Nat → Surface) × List Nat :=
  match root with
  | none => (surfaces, [])
  | some (k, children) => reassign_node cfg (.container k children) rect1 surfaces

/-- Surface ids of the wallpaper slot. -/
def wallIds (wall : Option Nat) : List Nat :=
  match wall with
  | some w => [w]
  | none => []

/-- Surface ids of the root slot. -/
def rootIds (root : Option (ContainerKind × List ShellNode)) : List Nat :=
  match root with
  | some (_, children) => listIds children
  | none => []

/-- One completed pass of `Manager::reassign_areas` (lines 325-377 without
a send failure): working rectangle = framebuffer inset by the configured
border; layers, then wallpaper (residual rectangle, visible iff no root),
then the root container.  Returns the updated surfaces and the list of
dirty surfaces, each of which is sent one `Description` event. -/
def reassign_pass (cfg : ManagerConfig) (sh : Shell) (surfaces : Nat → Surface) :
    (Nat → Surface) × List Nat :=
  let rect0 := (Rectangle.mk ⟨0, 0⟩ fbSize).inset cfg.inset
  let rl := reassign_layers sh.layers rect0 surfaces
  let rw := wallpaper_step sh.wallpaper sh.root.isNone rl.2.1 rl.1
  let rr := root_step cfg sh.root rl.2.1 rw.1
  (rr.1, rl.2.2 ++ rw.2 ++ rr.2)

/-- All surface ids referenced by a shell, in traversal order. -/
def shellIds (sh : Shell) : List Nat :=
  sh.layers.map (fun l => l.surface) ++ wallIds sh.wallpaper ++ rootIds sh.root

mutual
/-- Well-formedness of the tree: every container has at least one child
(the invariant the pruning maintains; the source panics otherwise). -/
def nodeWF : ShellNode → Bool
  | .surface _ => true
  | .container _ children => !children.isEmpty && listWF children

/-- Well-formedness of a child list. -/
def listWF : List ShellNode → Bool
  | [] => true
  | c :: rest => nodeWF c && listWF rest
end

/-- Well-formedness of a shell: the root's containers are all non-empty. -/
def shellWF (sh : Shell) : Bool :=
  match sh.root with
  | none => true
  | some (_, children) => !children.isEmpty && listWF children

/-! ### Concrete instances used by the theorems below -/

/-- A shell before a task removal: root `H[ H[S1, S2], S3 ]`.  With focus
path `[0, 1]` (surface 2 focused), removing surfaces 1 and 2 prunes the
inner container, leaving `H[S3]`. -/
def c5pre : Shell :=
  { layers := []
    root := some (.horizontal,
      [.container .horizontal [.surface 1, .surface 2], .surface 3])
    wallpaper := none }

/-- The shell after retaining only surface 3 from `c5pre`. -/
def c5post : Shell :=
  { layers := []
    root := some (.horizontal, [.surface 3])
    wallpaper := none }

/-- Routing state with one surface (id 3) focused and owned by task 7. -/
def c2state : RoutingState Unit :=
  { shell := c5post
    keyboard_focused_container := some [0]
    surfaceTask := fun id => if id = 3 then some 7 else none }

/-- Manager configuration used by the concrete reassignment instance (the
values `main` uses: global rotation 90, inset 4). -/
def c6cfg : ManagerConfig := { global_rotation := .rotate90, inset := 4 }

/-- A shell with one top layer, a wallpaper, and a root splitting two
surfaces, for the concrete reassignment instance. -/
def c6shell : Shell :=
  { layers := [{ anchor := .top, size := 48, surface := 10 }]
    root := some (.horizontal, [.surface 11, .surface 12])
    wallpaper := some 13 }

/-- Initial surfaces map for the concrete reassignment instance: every
surface holds the zero-rectangle placeholder description that
`create_surface` installs. -/
def c6surfaces : Nat → Surface := fun _ =>
  { description :=
      { base_rect := Rectangle.ZERO, rotation := .rotate90, scale := 1, visible := true }
    task := 1 }

end Wm

/-- Frame state whose current slot (40) is out of the 32-slot range. -/
def Touch.outOfRangeFrame : Touch.FrameState :=
  ⟨⟨40, fun _ => Option.none⟩, fun _ => Option.none⟩

/-! ## Theorems -/

/-- C1: the claim `transform_point(inverse(r), transform_point(r, p, c), c)
= p` fails at `r = None`, `p = (1,2)`, `c = (3,3)`: `inverse(None)` is
`Rotate180` in the source (the `None` and `Rotate180` arms are crossed), so
the round trip yields `(2,1)`, not `p`. -/
theorem c1_inverse_none_roundtrip_fails :
    Rotation.transform_point (Rotation.inverse .none)
      (Rotation.transform_point .none (pos2 1 2) (vec2 3 3)) (vec2 3 3) = pos2 2 1 ∧
    pos2 2 1 ≠ pos2 1 2 := by
  decide

/-- C7: `SurfaceDescription::size` equals the specification's description:
the components of `base_rect.size`, swapped for `Rotate90`/`Rotate270` and
kept for `None`/`Rotate180`, made non-negative, then divided componentwise
by `scale`. -/
theorem c7_reported_size (d : SurfaceDescription) : d.size = d.sizeSpec := by
  cases d with
  | mk br rot sc vis =>
    cases rot <;>
      simp [SurfaceDescription.size, SurfaceDescription.sizeSpec, Rotation.inverse,
        Rotation.transform_size, Vec2.abs, Vec2.divScalar, abs_neg]

/-- C4 counterexample: with one header byte accumulated (`Start` state,
buffer `[4]` — a frame partially read), a read of 0 bytes ends the stream
cleanly (`Poll::Ready(None)`), it does not fail with `UnexpectedEof` as the
claim states. -/
theorem c4_midheader_eof_counterexample :
    pollStep .start [4] (.ok []) = PollStep.yield Option.none .start [4] ∧
    (Option.none : Option StreamItem) ≠ some (.ioError .unexpectedEof) := by
  decide

/-- C4 amended: a read of 0 bytes in the `Start` state ends the stream even
when header bytes have accumulated; a read of 0 bytes in the `Size` state
(payload partially read) fails with `UnexpectedEof`; a connection-reset
error in the `Start` state ends the stream cleanly. -/
theorem c4_reader_boundary_amended :
    (∀ buf, pollStep .start buf (.ok []) = .yield Option.none .start buf) ∧
    (∀ n buf, pollStep (.size n) buf (.ok []) =
      .yield (some (.ioError .unexpectedEof)) (.size n) buf) ∧
    (∀ buf, pollStep .start buf (.ioError .connectionReset) = .yield Option.none .start buf) := by
  refine ⟨fun buf => ?_, fun n buf => ?_, fun buf => ?_⟩ <;> simp [pollStep]

/-- C2 counterexample: with a keyboard-focused surface (id 3, owned by task
7) present, a `Touch` event is dropped by `handle_input`; it is not sent to
the focused surface's task as the claim states. -/
theorem c2_touch_not_routed_counterexample :
    Wm.handle_input (fun _ : Unit => false) Wm.c2state (.touch ⟨0, .start⟩) = .drop ∧
    Wm.focused_surface Wm.c2state = some 3 ∧
    Wm.c2state.surfaceTask 3 = some 7 ∧
    Wm.RouteAction.drop ≠ .send 7 3 := by
  decide

/-- C2 amended: `Touch` and `Stylus` events are not delivered to any
surface: `handle_input` returns without routing them (the documented TODO),
for every manager state. -/
theorem c2_touch_stylus_dropped {K : Type} (isX : K → Bool) (m : Wm.RoutingState K)
    (te : Touch.TouchEvent) (sp : Wm.StylusPhase) :
    Wm.handle_input isX m (.touch te) = .drop ∧
    Wm.handle_input isX m (.stylus sp) = .drop := by
  constructor <;> simp [Wm.handle_input]

/-- C5: after pruning `H[H[S1,S2], S3]` down to `H[S3]` (surfaces 1 and 2
removed), repairing the previously valid focus path `[0,1]` leaves `[0,1]`
unchanged (`ShellNode::fix_path` truncates a too-deep path to `i + 1`
entries, one too many), and the repaired path does not resolve to a surface
node — `get_path` yields `None` although `[0]` would resolve to surface 3.
The subsequent `get_container_mut(..).unwrap()` in `create_surface` relies
on the invariant the claim states, so the code contradicts itself. -/
theorem c5_fix_path_code_bug :
    Wm.Shell.retain Wm.c5pre (fun id => id == 3) = Wm.c5post ∧
    Wm.Shell.get_path Wm.c5pre [0, 1] = some (.surface 2) ∧
    Wm.Shell.fix_path Wm.c5post (some [0, 1]) = some [0, 1] ∧
    Wm.Shell.get_path Wm.c5post [0, 1] = Option.none ∧
    Wm.Shell.get_path Wm.c5post [0] = some (.surface 3) := by
  refine ⟨?_, by decide, ?_, by decide, by decide⟩
  · simp [Wm.Shell.retain, Wm.c5pre, Wm.c5post, Wm.retainList, Wm.ShellNode.retain]
  · simp [Wm.Shell.fix_path, Wm.c5post, Wm.ShellNode.fix_path]

/-- Membership in the end-of-frame emission: every emitted event comes from
some slot index `i < 32` whose change is its phase. -/
theorem Touch.mem_emitChanges {changes : Fin 32 → Option Touch.Phase} {e : Touch.TouchEvent}
    (h : e ∈ Touch.emitChanges changes) :
    ∃ i : Fin 32, e.touch_id = i.val ∧ changes i = some e.phase := by
  simp only [Touch.emitChanges, List.mem_filterMap] at h
  obtain ⟨i, -, hi⟩ := h
  rcases Option.map_eq_some'.mp hi with ⟨p, hp, rfl⟩
  exact ⟨i, rfl, hp⟩

/-- C9: when a key event resolves to `Text`, the `Text` event is enqueued
only for logical presses, never for releases: for every layout, state and
scancode, processing a `Release` enqueues no `Text` event, and processing a
`Press` whose layout-resolved key resolves to `Text` enqueues that `Text`
event. -/
theorem c9_text_only_on_press {S K : Type} [DecidableEq S]
    (layout : Keyboard.KeyboardLayout S K) (st : Keyboard.KeyboardState S K) (sc : S) :
    (∀ e ∈ (Keyboard.process_key layout st sc .release).2, e.isText = false) ∧
    (∀ (k : K) (t : String),
      (layout.scancode_to_key sc st.modifiers).1 = some k →
      layout.resolve k (layout.scancode_to_key sc st.modifiers).2 = .text t →
      Keyboard.KbEvent.text t ∈ (Keyboard.process_key layout st sc .press).2) := by
  constructor
  · intro e he
    simp only [Keyboard.process_key, Keyboard.KeyEventKind.isRelease,
      Keyboard.KeyEventKind.isPress, Bool.not_false, if_true] at he
    cases hk : st.held_keys sc with
    | none =>
      simp only [hk, List.mem_singleton] at he
      subst he
      rfl
    | some k =>
      cases hr : layout.resolve k st.modifiers <;>
        simp_all [Keyboard.KbEvent.isText]
  · intro k t hk ht
    simp [Keyboard.process_key, Keyboard.KeyEventKind.isRelease,
      Keyboard.KeyEventKind.isPress, hk, ht]

/-- C9 witness: the one-key layout resolving to `Text("a")`, at the unit
scancode with the key held: a release enqueues no text, a press enqueues
`Text("a")`. -/
theorem c9_text_only_on_press_witness :
    (∀ e ∈ (Keyboard.process_key Keyboard.unitLayout Keyboard.unitKeyboardState () .release).2,
      e.isText = false) ∧
    (Keyboard.unitLayout.scancode_to_key () Keyboard.unitKeyboardState.modifiers).1 = some () ∧
    Keyboard.unitLayout.resolve ()
      (Keyboard.unitLayout.scancode_to_key () Keyboard.unitKeyboardState.modifiers).2 =
        .text "a" ∧
    Keyboard.KbEvent.text "a" ∈
      (Keyboard.process_key Keyboard.unitLayout Keyboard.unitKeyboardState () .press).2 :=
  ⟨(c9_text_only_on_press Keyboard.unitLayout Keyboard.unitKeyboardState ()).1, rfl, rfl,
    (c9_text_only_on_press Keyboard.unitLayout Keyboard.unitKeyboardState ()).2 () "a" rfl rfl⟩

/-- C10: every touch id carried by an emitted touch event is a slot index
below 32 (so `Input::touch_state` never hits its unreachable branch on such
an id), and any non-`Slot` touchscreen event arriving while the current
slot is 32 or more is ignored entirely: it changes neither the slot states
nor the change tracker. -/
theorem c10_touch_id_bounds :
    (∀ (ts : Touch.TouchStates) (events : List Touch.InternalTouchscreenEvent)
      (e : Touch.TouchEvent), e ∈ (Touch.process_touchscreen ts events).2 → e.touch_id < 32) ∧
    (∀ (fs : Touch.FrameState) (e : Touch.InternalTouchscreenEvent),
      32 ≤ fs.touch.slot → e.isSlot = false → Touch.stepEvent fs e = fs) := by
  constructor
  · intro ts events e he
    obtain ⟨i, hid, -⟩ := Touch.mem_emitChanges he
    rw [hid]
    exact i.isLt
  · intro fs e hslot hs
    have hcur : fs.touch.current? = Option.none := by
      simp only [Touch.TouchStates.current?, dif_neg (by omega : ¬ fs.touch.slot < 32)]
    cases e <;> simp_all [Touch.stepEvent, Touch.applyAxis, Touch.InternalTouchscreenEvent.isSlot]

/-- C10 witness: the event emitted for a fresh contact on slot 0 carries id
0 < 32, and a `TouchEnd` while the current slot is 40 leaves the frame
state untouched. -/
theorem c10_touch_id_bounds_witness :
    ((⟨0, .start⟩ : Touch.TouchEvent) ∈
      (Touch.process_touchscreen Touch.emptyTouchStates [.positionX 3]).2) ∧
    (⟨0, .start⟩ : Touch.TouchEvent).touch_id < 32 ∧
    32 ≤ Touch.outOfRangeFrame.touch.slot ∧
    Touch.InternalTouchscreenEvent.touchEnd.isSlot = false ∧
    Touch.stepEvent Touch.outOfRangeFrame .touchEnd = Touch.outOfRangeFrame :=
  ⟨by decide, c10_touch_id_bounds.1 Touch.emptyTouchStates [.positionX 3] _ (by decide),
    by decide, by decide,
    c10_touch_id_bounds.2 Touch.outOfRangeFrame .touchEnd (by decide) (by decide)⟩

/-- Monotonicity of the frame invariant in the touch-end set. -/
theorem Touch.frameInv_mono {entry : Fin 32 → Option Touch.TouchState}
    {g g' : Fin 32 → Bool} {fs : Touch.FrameState}
    (hg : ∀ s, g s = true → g' s = true) (h : Touch.FrameInv entry g fs) :
    Touch.FrameInv entry g' fs := by
  intro s
  obtain ⟨h1, h2, h3⟩ := h s
  exact ⟨fun hh => (h1 hh).imp_right (hg s), fun hh => (h2 hh).imp_right (hg s),
    fun hh => hg s (h3 hh)⟩

/-- An axis update preserves the frame invariant (with the same touch-end
set): it can set `Start` only where the state was absent, which the
invariant already accounts for, and it never sets `End`. -/
theorem Touch.frameInv_applyAxis (entry : Fin 32 → Option Touch.TouchState)
    (g : Fin 32 → Bool) (f : Touch.TouchState → Touch.TouchState) (fs : Touch.FrameState)
    (h : Touch.FrameInv entry g fs) :
    Touch.FrameInv entry g (Touch.applyAxis f fs) := by
  unfold Touch.applyAxis
  cases hcur : fs.touch.current? with
  | none => exact h
  | some i =>
    intro s
    by_cases hs : s = i
    · subst hs
      obtain ⟨h1, h2, h3⟩ := h s
      refine ⟨fun hh => ?_, fun hh => ?_, fun hh => ?_⟩
      · simp [Function.update_same] at hh
      · by_cases he : (fs.touch.states s).isNone
        · exact h1 (Option.isNone_iff_eq_none.mp he)
        · by_cases hc : fs.changes s ≠ some .start
          · simp [Function.update_same, he, hc] at hh
          · simp only [not_not] at hc
            exact h2 hc
      · by_cases he : (fs.touch.states s).isNone
        · simp [Function.update_same, he] at hh
        · by_cases hc : fs.changes s ≠ some .start
          · simp [Function.update_same, he, hc] at hh
          · simp only [not_not] at hc
            simp [Function.update_same, he, hc] at hh
    · obtain ⟨h1, h2, h3⟩ := h s
      simp only [Function.update_noteq hs]
      exact ⟨h1, h2, h3⟩

/-- An axis update does not change the current slot. -/
theorem Touch.applyAxis_slot (f : Touch.TouchState → Touch.TouchState)
    (fs : Touch.FrameState) : (Touch.applyAxis f fs).touch.slot = fs.touch.slot := by
  unfold Touch.applyAxis
  cases fs.touch.current? <;> rfl

/-- Processing a frame establishes the invariant relative to the entry
states and the touch-ends the frame performs. -/
theorem Touch.frameInv_processEvents (entry : Fin 32 → Option Touch.TouchState) :
    ∀ (events : List Touch.InternalTouchscreenEvent) (fs : Touch.FrameState)
      (g : Fin 32 → Bool), Touch.FrameInv entry g fs →
      Touch.FrameInv entry
        (fun s => g s || Touch.endsDuring fs.touch.slot events s)
        (Touch.processEvents fs events) := by
  intro events
  induction events with
  | nil =>
    intro fs g h
    exact Touch.frameInv_mono (fun s hs => by simp [Touch.endsDuring, hs]) h
  | cons e rest ih =>
    intro fs g h
    cases e with
    | slot v => exact ih _ g h
    | touchEnd =>
      by_cases hlt : fs.touch.slot < 32
      · have hcur : fs.touch.current? = some ⟨fs.touch.slot, hlt⟩ := by
          simp [Touch.TouchStates.current?, hlt]
        have hstep : Touch.stepEvent fs .touchEnd =
            { touch := { fs.touch with
                states := Function.update fs.touch.states ⟨fs.touch.slot, hlt⟩ Option.none }
              changes := Function.update fs.changes ⟨fs.touch.slot, hlt⟩
                (if fs.changes ⟨fs.touch.slot, hlt⟩ = some .start then Option.none
                 else some .end') } := by
          simp [Touch.stepEvent, hcur]
        have h1 : Touch.FrameInv entry (fun t => g t || (fs.touch.slot == t.val))
            (Touch.stepEvent fs .touchEnd) := by
          intro t
          rw [hstep]
          by_cases ht : t = ⟨fs.touch.slot, hlt⟩
          · subst ht
            have hbeq : (fs.touch.slot == (⟨fs.touch.slot, hlt⟩ : Fin 32).val) = true := by
              simp
            refine ⟨fun _ => Or.inr ?_, fun _ => Or.inr ?_, fun _ => ?_⟩ <;>
              simp [hbeq]
          · simp only [Function.update_noteq ht]
            obtain ⟨h1, h2, h3⟩ := h t
            refine ⟨fun hh => (h1 hh).imp_right (fun hb => by simp [hb]),
              fun hh => (h2 hh).imp_right (fun hb => by simp [hb]),
              fun hh => by simp [h3 hh]⟩
        have h2 := ih (Touch.stepEvent fs .touchEnd)
          (fun t => g t || (fs.touch.slot == t.val)) h1
        have hslot : (Touch.stepEvent fs .touchEnd).touch.slot = fs.touch.slot := by
          rw [hstep]
        refine Touch.frameInv_mono (fun s hs => ?_) h2
        rw [hslot] at hs
        simp only [Touch.endsDuring, Bool.or_eq_true] at hs ⊢
        tauto
      · have hstep : Touch.stepEvent fs .touchEnd = fs := by
          simp [Touch.stepEvent, Touch.TouchStates.current?, hlt]
        have h2 := ih fs g h
        show Touch.FrameInv entry _ (Touch.processEvents (Touch.stepEvent fs .touchEnd) rest)
        rw [hstep]
        refine Touch.frameInv_mono (fun s hs => ?_) h2
        simp only [Touch.endsDuring, Bool.or_eq_true] at hs ⊢
        tauto
    | positionX v =>
      have hstep : Touch.stepEvent fs (.positionX v) =
          Touch.applyAxis (fun st => { st with x := v }) fs := rfl
      have h2 := ih (Touch.stepEvent fs (.positionX v)) g
        (by rw [hstep]; exact Touch.frameInv_applyAxis entry g _ fs h)
      refine Touch.frameInv_mono (fun s hs => ?_) h2
      rw [hstep, Touch.applyAxis_slot] at hs
      exact hs
    | positionY v =>
      have hstep : Touch.stepEvent fs (.positionY v) =
          Touch.applyAxis (fun st => { st with y := v }) fs := rfl
      have h2 := ih (Touch.stepEvent fs (.positionY v)) g
        (by rw [hstep]; exact Touch.frameInv_applyAxis entry g _ fs h)
      refine Touch.frameInv_mono (fun s hs => ?_) h2
      rw [hstep, Touch.applyAxis_slot] at hs
      exact hs
    | pressure v =>
      have hstep : Touch.stepEvent fs (.pressure v) =
          Touch.applyAxis (fun st => { st with pressure := v }) fs := rfl
      have h2 := ih (Touch.stepEvent fs (.pressure v)) g
        (by rw [hstep]; exact Touch.frameInv_applyAxis entry g _ fs h)
      refine Touch.frameInv_mono (fun s hs => ?_) h2
      rw [hstep, Touch.applyAxis_slot] at hs
      exact hs
    | touchMajor v =>
      have hstep : Touch.stepEvent fs (.touchMajor v) =
          Touch.applyAxis (fun st => { st with touch_major := v }) fs := rfl
      have h2 := ih (Touch.stepEvent fs (.touchMajor v)) g
        (by rw [hstep]; exact Touch.frameInv_applyAxis entry g _ fs h)
      refine Touch.frameInv_mono (fun s hs => ?_) h2
      rw [hstep, Touch.applyAxis_slot] at hs
      exact hs
    | touchMinor v =>
      have hstep : Touch.stepEvent fs (.touchMinor v) =
          Touch.applyAxis (fun st => { st with touch_minor := v }) fs := rfl
      have h2 := ih (Touch.stepEvent fs (.touchMinor v)) g
        (by rw [hstep]; exact Touch.frameInv_applyAxis entry g _ fs h)
      refine Touch.frameInv_mono (fun s hs => ?_) h2
      rw [hstep, Touch.applyAxis_slot] at hs
      exact hs
    | orientation v =>
      have hstep : Touch.stepEvent fs (.orientation v) =
          Touch.applyAxis (fun st => { st with orientation := v }) fs := rfl
      have h2 := ih (Touch.stepEvent fs (.orientation v)) g
        (by rw [hstep]; exact Touch.frameInv_applyAxis entry g _ fs h)
      refine Touch.frameInv_mono (fun s hs => ?_) h2
      rw [hstep, Touch.applyAxis_slot] at hs
      exact hs

/-- C3 counterexample: from the state with slot 0 active and slot 1 empty,
the frame `[TouchEnd, PositionX 5, Slot 1, TouchEnd]` emits `Start` for
slot 0 — which had state at frame entry — and `End` for slot 1 — which was
empty at frame entry.  Both halves of the claimed invariant fail. -/
theorem c3_phase_invariant_counterexample :
    (Touch.process_touchscreen Touch.c3entry Touch.c3frame).2 =
      [⟨0, .start⟩, ⟨1, .end'⟩] ∧
    (Touch.c3entry.states 0).isSome = true ∧
    Touch.c3entry.states 1 = Option.none := by
  decide

/-- C3 amended: `Start` is emitted for a slot only if that slot was empty
at frame entry or a `TouchEnd` for it was processed earlier in the same
frame; `End` is emitted for a slot only if a `TouchEnd` for it was
processed during the frame (which can happen even when the slot was empty
at frame entry). -/
theorem c3_phase_invariant_amended (entry : Touch.TouchStates)
    (frame : List Touch.InternalTouchscreenEvent) (s : Fin 32) (p : Touch.Phase)
    (hm : (⟨s.val, p⟩ : Touch.TouchEvent) ∈ (Touch.process_touchscreen entry frame).2) :
    (p = .start →
      entry.states s = Option.none ∨ Touch.endsDuring entry.slot frame s = true) ∧
    (p = .end' → Touch.endsDuring entry.slot frame s = true) := by
  have h0 : Touch.FrameInv entry.states (fun _ => false) ⟨entry, fun _ => Option.none⟩ := by
    intro t
    exact ⟨fun hh => Or.inl hh, fun hh => Option.noConfusion hh,
      fun hh => Option.noConfusion hh⟩
  have hfin := Touch.frameInv_processEvents entry.states frame
    ⟨entry, fun _ => Option.none⟩ (fun _ => false) h0
  obtain ⟨i, hid, hch⟩ := Touch.mem_emitChanges hm
  have hsi : i = s := Fin.ext hid.symm
  subst hsi
  obtain ⟨-, c2, c3⟩ := hfin i
  constructor
  · intro hp
    subst hp
    have := c2 hch
    simpa using this
  · intro hp
    subst hp
    have := c3 hch
    simpa using this

/-- C3 amended witness: a fresh contact on the empty slot 0 emits `Start`,
and the amended conditions hold for it. -/
theorem c3_phase_invariant_amended_witness :
    ((⟨0, .start⟩ : Touch.TouchEvent) ∈
      (Touch.process_touchscreen Touch.emptyTouchStates [.positionX 3]).2) ∧
    ((Touch.Phase.start = .start →
      Touch.emptyTouchStates.states 0 = Option.none ∨
        Touch.endsDuring Touch.emptyTouchStates.slot [.positionX 3] 0 = true) ∧
     (Touch.Phase.start = .end' →
      Touch.endsDuring Touch.emptyTouchStates.slot [.positionX 3] 0 = true)) :=
  ⟨by decide, c3_phase_invariant_amended Touch.emptyTouchStates [.positionX 3] 0 .start
    (by decide)⟩

/-- Processing an appended event list is processing in sequence. -/
theorem Touch.processEvents_append (l1 l2 : List Touch.InternalTouchscreenEvent) :
    ∀ fs, Touch.processEvents fs (l1 ++ l2) =
      Touch.processEvents (Touch.processEvents fs l1) l2 := by
  induction l1 with
  | nil => intro fs; rfl
  | cons e rest ih => intro fs; exact ih (Touch.stepEvent fs e)

/-- An axis event is one `applyAxis` application. -/
theorem Touch.isAxis_step (e : Touch.InternalTouchscreenEvent) (he : e.isAxis = true)
    (fs : Touch.FrameState) :
    ∃ f, Touch.stepEvent fs e = Touch.applyAxis f fs := by
  cases e with
  | slot v => simp [Touch.InternalTouchscreenEvent.isAxis] at he
  | touchEnd => simp [Touch.InternalTouchscreenEvent.isAxis] at he
  | positionX v => exact ⟨fun st => { st with x := v }, rfl⟩
  | positionY v => exact ⟨fun st => { st with y := v }, rfl⟩
  | pressure v => exact ⟨fun st => { st with pressure := v }, rfl⟩
  | touchMajor v => exact ⟨fun st => { st with touch_major := v }, rfl⟩
  | touchMinor v => exact ⟨fun st => { st with touch_minor := v }, rfl⟩
  | orientation v => exact ⟨fun st => { st with orientation := v }, rfl⟩

/-- The current slot resolves to `i` when the stored slot is `i.val`. -/
theorem Touch.current?_eq {fs : Touch.FrameState} {i : Fin 32}
    (hslot : fs.touch.slot = i.val) : fs.touch.current? = some i := by
  simp only [Touch.TouchStates.current?, hslot, i.isLt, dif_pos]

/-- An axis update on a slot that is active with change `Start` keeps the
slot active with change `Start` and touches no other slot. -/
theorem Touch.applyAxis_step_facts (f : Touch.TouchState → Touch.TouchState)
    {fs : Touch.FrameState} {i : Fin 32}
    (hslot : fs.touch.slot = i.val)
    (hsome : (fs.touch.states i).isSome = true)
    (hstart : fs.changes i = some .start) :
    (Touch.applyAxis f fs).touch.slot = i.val ∧
    ((Touch.applyAxis f fs).touch.states i).isSome = true ∧
    (Touch.applyAxis f fs).changes i = some .start ∧
    (∀ t, t ≠ i → (Touch.applyAxis f fs).touch.states t = fs.touch.states t ∧
      (Touch.applyAxis f fs).changes t = fs.changes t) := by
  have hcur : fs.touch.current? = some i := Touch.current?_eq hslot
  cases hst : fs.touch.states i with
  | none => rw [hst] at hsome; simp at hsome
  | some stv =>
    refine ⟨?_, ?_, ?_, fun t ht => ⟨?_, ?_⟩⟩
    · simp [Touch.applyAxis, hcur, hslot]
    · simp [Touch.applyAxis, hcur]
    · simp [Touch.applyAxis, hcur, hst, hstart]
    · simp [Touch.applyAxis, hcur, Function.update_noteq ht]
    · simp [Touch.applyAxis, hcur, Function.update_noteq ht]

/-- An axis update on the current slot whose state is absent materializes
the state and sets the change to `Start`. -/
theorem Touch.applyAxis_fresh (f : Touch.TouchState → Touch.TouchState)
    {fs : Touch.FrameState} {i : Fin 32}
    (hslot : fs.touch.slot = i.val) (hempty : fs.touch.states i = Option.none) :
    Touch.applyAxis f fs =
      { touch := { fs.touch with
          states := Function.update fs.touch.states i (some (f default)) }
        changes := Function.update fs.changes i (some .start) } := by
  have hcur : fs.touch.current? = some i := Touch.current?_eq hslot
  simp [Touch.applyAxis, hcur, hempty]

/-- A run of axis events over a slot that is active with change `Start`
keeps it so, and leaves every other slot untouched. -/
theorem Touch.axes_preserve :
    ∀ (axes : List Touch.InternalTouchscreenEvent) (fs : Touch.FrameState) (i : Fin 32),
      (∀ e ∈ axes, e.isAxis = true) →
      fs.touch.slot = i.val →
      (fs.touch.states i).isSome = true →
      fs.changes i = some .start →
      (Touch.processEvents fs axes).touch.slot = i.val ∧
      ((Touch.processEvents fs axes).touch.states i).isSome = true ∧
      (Touch.processEvents fs axes).changes i = some .start ∧
      (∀ t, t ≠ i → (Touch.processEvents fs axes).touch.states t = fs.touch.states t ∧
        (Touch.processEvents fs axes).changes t = fs.changes t) := by
  intro axes
  induction axes with
  | nil => intro fs i _ h1 h2 h3; exact ⟨h1, h2, h3, fun t _ => ⟨rfl, rfl⟩⟩
  | cons e rest ih =>
    intro fs i hax hslot hsome hstart
    have hhead : e.isAxis = true := hax e (List.mem_cons_self e rest)
    have htail : ∀ e' ∈ rest, e'.isAxis = true :=
      fun e' he' => hax e' (List.mem_cons_of_mem e he')
    obtain ⟨f, hstep⟩ := Touch.isAxis_step e hhead fs
    obtain ⟨s1, s2, s3, s4⟩ := Touch.applyAxis_step_facts f hslot hsome hstart
    have hproc : Touch.processEvents fs (e :: rest) =
        Touch.processEvents (Touch.applyAxis f fs) rest := by
      show Touch.processEvents (Touch.stepEvent fs e) rest = _
      rw [hstep]
    obtain ⟨t1, t2, t3, t4⟩ := ih (Touch.applyAxis f fs) i htail s1 s2 s3
    rw [hproc]
    exact ⟨t1, t2, t3, fun t ht =>
      ⟨(t4 t ht).1.trans (s4 t ht).1, (t4 t ht).2.trans (s4 t ht).2⟩⟩

/-- If no slot has a recorded change, nothing is emitted. -/
theorem Touch.emitChanges_eq_nil {changes : Fin 32 → Option Touch.Phase}
    (h : ∀ i, changes i = Option.none) : Touch.emitChanges changes = [] := by
  refine List.filterMap_eq_nil_iff.mpr fun i _ => ?_
  rw [h i]
  rfl

/-- If exactly one slot has a recorded change, exactly its event is
emitted. -/
theorem Touch.emitChanges_single {changes : Fin 32 → Option Touch.Phase} {i : Fin 32}
    {p : Touch.Phase} (hi : changes i = some p)
    (ho : ∀ t, t ≠ i → changes t = Option.none) :
    Touch.emitChanges changes = [⟨i.val, p⟩] := by
  have key : ∀ l : List (Fin 32), l.Nodup → i ∈ l →
      l.filterMap (fun t => (changes t).map fun q => (⟨t.val, q⟩ : Touch.TouchEvent)) =
        [⟨i.val, p⟩] := by
    intro l
    induction l with
    | nil => intro _ hm; exact absurd hm (List.not_mem_nil i)
    | cons a l ihl =>
      intro hnd hm
      obtain ⟨ha, hnd'⟩ := List.nodup_cons.mp hnd
      by_cases hai : a = i
      · subst hai
        have hrest : l.filterMap
            (fun t => (changes t).map fun q => (⟨t.val, q⟩ : Touch.TouchEvent)) = [] := by
          refine List.filterMap_eq_nil_iff.mpr fun t htl => ?_
          rw [ho t (fun hti => ha (hti ▸ htl))]
          rfl
        simp [List.filterMap_cons, hi, hrest]
      · have hm' : i ∈ l := by
          cases List.mem_cons.mp hm with
          | inl hia => exact absurd hia.symm hai
          | inr hm' => exact hm'
        have hna : changes a = Option.none := ho a hai
        simp [List.filterMap_cons, hna, ihl hnd' hm']
  exact key (List.finRange 32) (List.nodup_finRange 32) (List.mem_finRange i)

/-- C8: within one sync frame, (1) a slot that was empty at frame entry and
receives axis updates followed by a `TrackingId = -1` in the same frame
yields zero emitted events (the whole frame emits nothing), and (2) a frame
consisting of a `Slot` selection plus `TrackingId = -1` on a currently
active slot emits exactly one `End` event for that slot. -/
theorem c8_same_frame_touch :
    (∀ (ts : Touch.TouchStates) (s : Nat) (h : s < 32)
      (axes : List Touch.InternalTouchscreenEvent),
      ts.states ⟨s, h⟩ = Option.none → axes ≠ [] → (∀ e ∈ axes, e.isAxis = true) →
      (Touch.process_touchscreen ts (.slot s :: (axes ++ [.touchEnd]))).2 = []) ∧
    (∀ (ts : Touch.TouchStates) (v : Nat) (h : v < 32),
      (ts.states ⟨v, h⟩).isSome = true →
      (Touch.process_touchscreen ts [.slot v, .touchEnd]).2 = [⟨v, .end'⟩]) := by
  constructor
  · intro ts s h axes hempty hne hax
    obtain ⟨a, rest, rfl⟩ := List.exists_cons_of_ne_nil hne
    have hheada : a.isAxis = true := hax a (List.mem_cons_self a rest)
    have htail : ∀ e' ∈ rest, e'.isAxis = true :=
      fun e' he' => hax e' (List.mem_cons_of_mem a he')
    set i : Fin 32 := ⟨s, h⟩ with hidef
    set fs1 : Touch.FrameState := ⟨⟨s, ts.states⟩, fun _ => Option.none⟩ with hfs1
    obtain ⟨f, hstep⟩ := Touch.isAxis_step a hheada fs1
    set fs2 : Touch.FrameState :=
      { touch := { fs1.touch with
          states := Function.update fs1.touch.states i (some (f default)) }
        changes := Function.update fs1.changes i (some .start) } with hfs2
    have hfresh : Touch.applyAxis f fs1 = fs2 :=
      Touch.applyAxis_fresh f rfl hempty
    obtain ⟨t1, t2, t3, t4⟩ := Touch.axes_preserve rest fs2 i htail
      (by simp [hfs2, hfs1]) (by simp [hfs2, Function.update_same])
      (by simp [hfs2, Function.update_same])
    set fs3 := Touch.processEvents fs2 rest with hfs3
    have hcur3 : fs3.touch.current? = some i := Touch.current?_eq t1
    have hproc : (Touch.process_touchscreen ts
        (.slot s :: ((a :: rest) ++ [.touchEnd]))).2 =
        Touch.emitChanges (Touch.processEvents fs3 [.touchEnd]).changes := by
      show Touch.emitChanges (Touch.processEvents ⟨ts, fun _ => Option.none⟩ _).changes = _
      have : Touch.processEvents (⟨ts, fun _ => Option.none⟩ : Touch.FrameState)
          (.slot s :: ((a :: rest) ++ [.touchEnd])) = Touch.processEvents fs3 [.touchEnd] := by
        show Touch.processEvents (Touch.stepEvent fs1 a) (rest ++ [.touchEnd]) = _
        rw [hstep, hfresh, Touch.processEvents_append]
      rw [this]
    rw [hproc]
    have hch : (Touch.processEvents fs3 [.touchEnd]).changes =
        Function.update fs3.changes i
          (if fs3.changes i = some .start then Option.none else some .end') := by
      show (Touch.stepEvent fs3 .touchEnd).changes = _
      simp [Touch.stepEvent, hcur3]
    rw [hch]
    refine Touch.emitChanges_eq_nil fun t => ?_
    by_cases ht : t = i
    · subst ht
      simp [Function.update_same, t3]
    · rw [Function.update_noteq ht, (t4 t ht).2]
      simp [hfs2, Function.update_noteq ht, hfs1]
  · intro ts v h hsome
    set i : Fin 32 := ⟨v, h⟩ with hidef
    set fs1 : Touch.FrameState := ⟨⟨v, ts.states⟩, fun _ => Option.none⟩ with hfs1
    have hcur : fs1.touch.current? = some i := Touch.current?_eq rfl
    have hch : (Touch.processEvents (⟨ts, fun _ => Option.none⟩ : Touch.FrameState)
        [.slot v, .touchEnd]).changes = Function.update fs1.changes i (some .end') := by
      show (Touch.stepEvent fs1 .touchEnd).changes = _
      simp [Touch.stepEvent, hcur, hfs1]
    show Touch.emitChanges (Touch.processEvents ⟨ts, fun _ => Option.none⟩ _).changes = _
    rw [hch]
    exact Touch.emitChanges_single (Function.update_same i _ _)
      (fun t ht => by rw [Function.update_noteq ht])

/-- C8 witness: a fresh contact on empty slot 0 ended in the same frame
emits nothing; a lone `Slot 0` + `TrackingId = -1` on the active slot 0
emits exactly `End(0)`. -/
theorem c8_same_frame_touch_witness :
    Touch.emptyTouchStates.states 0 = Option.none ∧
    (Touch.process_touchscreen Touch.emptyTouchStates
      (.slot 0 :: ([.positionX 1, .positionY 2] ++ [.touchEnd]))).2 = [] ∧
    (Touch.slot0Active.states 0).isSome = true ∧
    (Touch.process_touchscreen Touch.slot0Active [.slot 0, .touchEnd]).2 = [⟨0, .end'⟩] :=
  ⟨by decide,
    c8_same_frame_touch.1 Touch.emptyTouchStates 0 (by decide)
      [.positionX 1, .positionY 2] (by decide) (by decide) (by decide),
    by decide,
    c8_same_frame_touch.2 Touch.slot0Active 0 (by decide) (by decide)⟩

/-- A surface record whose description is its own description is itself. -/
theorem Wm.Surface.update_desc_self {s : Wm.Surface} {d : SurfaceDescription}
    (hd : s.description = d) : ({ s with description := d } : Wm.Surface) = s := by
  cases s
  simp_all

/-- Updating `base_rect` to its current value leaves a description fixed. -/
theorem SurfaceDescription.update_base_self {d : SurfaceDescription} {b : Rectangle}
    (hb : d.base_rect = b) : ({ d with base_rect := b } : SurfaceDescription) = d := by
  cases d
  simp_all

/-- Updating `base_rect` and `visible` to their current values leaves a
description fixed. -/
theorem SurfaceDescription.update_base_visible_self {d : SurfaceDescription}
    {b : Rectangle} {v : Bool} (hb : d.base_rect = b) (hv : d.visible = v) :
    ({ d with base_rect := b, visible := v } : SurfaceDescription) = d := by
  cases d
  simp_all

mutual
/-- Reassignment of a node leaves surfaces outside the node untouched. -/
theorem Wm.reassign_node_frame (cfg : Wm.ManagerConfig) (n : Wm.ShellNode)
    (r : Rectangle) (σ : Nat → Wm.Surface) (s : Nat) (hs : s ∉ Wm.nodeIds n) :
    (Wm.reassign_node cfg n r σ).1 s = σ s := by
  match n with
  | .surface id =>
    have hne : s ≠ id := by simpa [Wm.nodeIds] using hs
    simp [Wm.reassign_node, Function.update_noteq hne]
  | .container kind children =>
    have hs' : s ∉ Wm.listIds children := by simpa [Wm.nodeIds] using hs
    simpa [Wm.reassign_node] using
      Wm.reassign_children_frame cfg _ _ children r σ s hs'

/-- Reassignment of a child list leaves surfaces outside the list
untouched. -/
theorem Wm.reassign_children_frame (cfg : Wm.ManagerConfig) (side : Side) (cs : Int)
    (l : List Wm.ShellNode) (r : Rectangle) (σ : Nat → Wm.Surface) (s : Nat)
    (hs : s ∉ Wm.listIds l) :
    (Wm.reassign_children cfg side cs l r σ).1 s = σ s := by
  match l with
  | [] => simp [Wm.reassign_children]
  | [last] =>
    have hs' : s ∉ Wm.nodeIds last := by simpa [Wm.listIds] using hs
    simpa [Wm.reassign_children] using Wm.reassign_node_frame cfg last r σ s hs'
  | child :: next :: rest =>
    have hsplit : Wm.listIds (child :: next :: rest) =
        Wm.nodeIds child ++ Wm.listIds (next :: rest) := rfl
    rw [hsplit] at hs
    simp only [List.mem_append, not_or] at hs
    obtain ⟨h1, h2⟩ := hs
    simp only [Wm.reassign_children]
    exact (Wm.reassign_children_frame cfg side cs (next :: rest) _ _ s h2).trans
      (Wm.reassign_node_frame cfg child _ σ s h1)
end

mutual
/-- Reassignment of a node depends on the surfaces map only through the
node's own surfaces: two maps agreeing there produce the same dirty list
and agree on the node's surfaces afterwards. -/
theorem Wm.reassign_node_agree (cfg : Wm.ManagerConfig) (n : Wm.ShellNode)
    (r : Rectangle) (σ τ : Nat → Wm.Surface)
    (hag : ∀ s ∈ Wm.nodeIds n, σ s = τ s) :
    (Wm.reassign_node cfg n r σ).2 = (Wm.reassign_node cfg n r τ).2 ∧
    ∀ s ∈ Wm.nodeIds n,
      (Wm.reassign_node cfg n r σ).1 s = (Wm.reassign_node cfg n r τ).1 s := by
  match n with
  | .surface id =>
    have hid : σ id = τ id := hag id (by simp [Wm.nodeIds])
    constructor
    · simp [Wm.reassign_node, hid]
    · intro s hsm
      have : s = id := by simpa [Wm.nodeIds] using hsm
      subst this
      simp [Wm.reassign_node, hid, Function.update_same]
  | .container kind children =>
    have hag' : ∀ s ∈ Wm.listIds children, σ s = τ s := fun s hsm =>
      hag s (by simpa [Wm.nodeIds] using hsm)
    have h := Wm.reassign_children_agree cfg (Wm.container_child_side cfg kind)
      (Wm.container_child_size (Wm.container_child_side cfg kind) r children.length)
      children r σ τ hag'
    constructor
    · simpa [Wm.reassign_node] using h.1
    · intro s hsm
      have hsm' : s ∈ Wm.listIds children := by simpa [Wm.nodeIds] using hsm
      simpa [Wm.reassign_node] using h.2 s hsm'

/-- Reassignment of a child list depends on the surfaces map only through
the list's surfaces. -/
theorem Wm.reassign_children_agree (cfg : Wm.ManagerConfig) (side : Side) (cs : Int)
    (l : List Wm.ShellNode) (r : Rectangle) (σ τ : Nat → Wm.Surface)
    (hag : ∀ s ∈ Wm.listIds l, σ s = τ s) :
    (Wm.reassign_children cfg side cs l r σ).2 =
      (Wm.reassign_children cfg side cs l r τ).2 ∧
    ∀ s ∈ Wm.listIds l,
      (Wm.reassign_children cfg side cs l r σ).1 s =
        (Wm.reassign_children cfg side cs l r τ).1 s := by
  match l with
  | [] => exact ⟨by simp [Wm.reassign_children], fun s hsm => by simp [Wm.listIds] at hsm⟩
  | [last] =>
    have hag' : ∀ s ∈ Wm.nodeIds last, σ s = τ s := fun s hsm =>
      hag s (by simpa [Wm.listIds] using hsm)
    have h := Wm.reassign_node_agree cfg last r σ τ hag'
    refine ⟨by simpa [Wm.reassign_children] using h.1, fun s hsm => ?_⟩
    have hsm' : s ∈ Wm.nodeIds last := by simpa [Wm.listIds] using hsm
    simpa [Wm.reassign_children] using h.2 s hsm'
  | child :: next :: rest =>
    have hsplit : Wm.listIds (child :: next :: rest) =
        Wm.nodeIds child ++ Wm.listIds (next :: rest) := rfl
    have hagc : ∀ s ∈ Wm.nodeIds child, σ s = τ s := fun s hsm =>
      hag s (by rw [hsplit]; exact List.mem_append_left _ hsm)
    have hagr : ∀ s ∈ Wm.listIds (next :: rest), σ s = τ s := fun s hsm =>
      hag s (by rw [hsplit]; exact List.mem_append_right _ hsm)
    obtain ⟨d1eq, v1eq⟩ := Wm.reassign_node_agree cfg child (side.take cs r).1 σ τ hagc
    have hag1 : ∀ s ∈ Wm.listIds (next :: rest),
        (Wm.reassign_node cfg child (side.take cs r).1 σ).1 s =
          (Wm.reassign_node cfg child (side.take cs r).1 τ).1 s := by
      intro s hsm
      by_cases hc : s ∈ Wm.nodeIds child
      · exact v1eq s hc
      · rw [Wm.reassign_node_frame cfg child _ σ s hc,
          Wm.reassign_node_frame cfg child _ τ s hc]
        exact hagr s hsm
    obtain ⟨d2eq, v2eq⟩ := Wm.reassign_children_agree cfg side cs (next :: rest)
      (side.take cs r).2 _ _ hag1
    constructor
    · simp only [Wm.reassign_children]
      rw [d1eq, d2eq]
    · intro s hsm
      rw [hsplit] at hsm
      simp only [Wm.reassign_children]
      by_cases hr : s ∈ Wm.listIds (next :: rest)
      · exact v2eq s hr
      · have hc : s ∈ Wm.nodeIds child := by
          cases List.mem_append.mp hsm with
          | inl h => exact h
          | inr h => exact absurd h hr
        rw [Wm.reassign_children_frame cfg side cs (next :: rest) _ _ s hr,
          Wm.reassign_children_frame cfg side cs (next :: rest) _ _ s hr]
        exact v1eq s hc
end

mutual
/-- Running the reassignment of a node a second time on its own output
changes nothing and marks nothing dirty (the node's surfaces are assumed
distinct, the invariant the manager maintains). -/
theorem Wm.reassign_node_idem (cfg : Wm.ManagerConfig) (n : Wm.ShellNode)
    (r : Rectangle) (σ : Nat → Wm.Surface) (hnd : (Wm.nodeIds n).Nodup) :
    Wm.reassign_node cfg n r ((Wm.reassign_node cfg n r σ).1) =
      ((Wm.reassign_node cfg n r σ).1, []) := by
  match n with
  | .surface id =>
    have h1 : (Wm.reassign_node cfg (.surface id) r σ).1 id =
        { σ id with description := { (σ id).description with base_rect := r } } := by
      simp [Wm.reassign_node, Function.update_same]
    refine Prod.ext ?_ ?_
    · show (Wm.reassign_node cfg (.surface id) r _).1 = _
      funext s
      by_cases hs : s = id
      · subst hs
        simp [Wm.reassign_node, Function.update_same, h1]
      · simp [Wm.reassign_node, Function.update_noteq hs]
    · show (Wm.reassign_node cfg (.surface id) r _).2 = _
      simp [Wm.reassign_node, h1]
  | .container kind children =>
    have hnd' : (Wm.listIds children).Nodup := by simpa [Wm.nodeIds] using hnd
    have h := Wm.reassign_children_idem cfg (Wm.container_child_side cfg kind)
      (Wm.container_child_size (Wm.container_child_side cfg kind) r children.length)
      children r σ hnd'
    simp only [Wm.reassign_node]
    exact h

/-- Running the reassignment of a child list a second time on its own
output changes nothing and marks nothing dirty. -/
theorem Wm.reassign_children_idem (cfg : Wm.ManagerConfig) (side : Side) (cs : Int)
    (l : List Wm.ShellNode) (r : Rectangle) (σ : Nat → Wm.Surface)
    (hnd : (Wm.listIds l).Nodup) :
    Wm.reassign_children cfg side cs l r ((Wm.reassign_children cfg side cs l r σ).1) =
      ((Wm.reassign_children cfg side cs l r σ).1, []) := by
  match l with
  | [] => simp [Wm.reassign_children]
  | [last] =>
    have hnd' : (Wm.nodeIds last).Nodup := by simpa [Wm.listIds] using hnd
    have h := Wm.reassign_node_idem cfg last r σ hnd'
    simp only [Wm.reassign_children]
    exact h
  | child :: next :: rest =>
    have hsplit : Wm.listIds (child :: next :: rest) =
        Wm.nodeIds child ++ Wm.listIds (next :: rest) := rfl
    rw [hsplit] at hnd
    obtain ⟨nd1, nd2, hdisj⟩ := List.nodup_append.mp hnd
    -- State after the first pass over the head child and over the tail.
    have hA1 := Wm.reassign_node_idem cfg child (side.take cs r).1 σ nd1
    have hB1 := Wm.reassign_children_idem cfg side cs (next :: rest) (side.take cs r).2
      ((Wm.reassign_node cfg child (side.take cs r).1 σ).1) nd2
    -- The tail pass does not move the head child's surfaces.
    have hagree : ∀ s ∈ Wm.nodeIds child,
        (Wm.reassign_children cfg side cs (next :: rest) (side.take cs r).2
          ((Wm.reassign_node cfg child (side.take cs r).1 σ).1)).1 s =
        (Wm.reassign_node cfg child (side.take cs r).1 σ).1 s := by
      intro s hs
      exact Wm.reassign_children_frame cfg side cs (next :: rest) _ _ s
        (fun hmem => hdisj hs hmem)
    -- Reassigning the head child from the final state is the identity.
    have hA2 : Wm.reassign_node cfg child (side.take cs r).1
        ((Wm.reassign_children cfg side cs (next :: rest) (side.take cs r).2
          ((Wm.reassign_node cfg child (side.take cs r).1 σ).1)).1) =
        ((Wm.reassign_children cfg side cs (next :: rest) (side.take cs r).2
          ((Wm.reassign_node cfg child (side.take cs r).1 σ).1)).1, []) := by
      obtain ⟨dEq, vEq⟩ := Wm.reassign_node_agree cfg child (side.take cs r).1 _ _ hagree
      refine Prod.ext ?_ ?_
      · funext s
        by_cases hs : s ∈ Wm.nodeIds child
        · calc (Wm.reassign_node cfg child (side.take cs r).1 _).1 s
              = (Wm.reassign_node cfg child (side.take cs r).1
                  ((Wm.reassign_node cfg child (side.take cs r).1 σ).1)).1 s := vEq s hs
            _ = ((Wm.reassign_node cfg child (side.take cs r).1 σ).1) s := by rw [hA1]
            _ = _ := (hagree s hs).symm
        · exact Wm.reassign_node_frame cfg child _ _ s hs
      · show (Wm.reassign_node cfg child (side.take cs r).1 _).2 = _
        rw [dEq, hA1]
    simp only [Wm.reassign_children]
    rw [hA2, hB1]
    rfl
end

/-- The residual rectangle after the layer loop does not depend on the
surfaces map. -/
theorem Wm.reassign_layers_rect (L : List Wm.ShellLayer) :
    ∀ (r : Rectangle) (σ τ : Nat → Wm.Surface),
      (Wm.reassign_layers L r σ).2.1 = (Wm.reassign_layers L r τ).2.1 := by
  induction L with
  | nil => intro r σ τ; rfl
  | cons layer rest ih =>
    intro r σ τ
    simp only [Wm.reassign_layers]
    exact ih _ _ _

/-- The layer loop leaves surfaces that are not layers untouched. -/
theorem Wm.reassign_layers_frame (L : List Wm.ShellLayer) :
    ∀ (r : Rectangle) (σ : Nat → Wm.Surface) (s : Nat),
      s ∉ L.map (fun l => l.surface) → (Wm.reassign_layers L r σ).1 s = σ s := by
  induction L with
  | nil => intro r σ s _; rfl
  | cons layer rest ih =>
    intro r σ s hs
    simp only [List.map_cons, List.mem_cons, not_or] at hs
    obtain ⟨h1, h2⟩ := hs
    simp only [Wm.reassign_layers]
    exact (ih _ _ s h2).trans (Function.update_noteq h1 _ _)

/-- The layer loop depends on the surfaces map only through the layer
surfaces. -/
theorem Wm.reassign_layers_agree (L : List Wm.ShellLayer) :
    ∀ (r : Rectangle) (σ τ : Nat → Wm.Surface),
      (∀ s ∈ L.map (fun l => l.surface), σ s = τ s) →
      (Wm.reassign_layers L r σ).2.2 = (Wm.reassign_layers L r τ).2.2 ∧
      ∀ s ∈ L.map (fun l => l.surface),
        (Wm.reassign_layers L r σ).1 s = (Wm.reassign_layers L r τ).1 s := by
  induction L with
  | nil => exact fun r σ τ _ => ⟨rfl, fun s hs => by simp at hs⟩
  | cons layer rest ih =>
    intro r σ τ hag
    have hw : σ layer.surface = τ layer.surface :=
      hag layer.surface (by simp)
    have hagtail : ∀ s ∈ rest.map (fun l => l.surface),
        (Function.update σ layer.surface
          { σ layer.surface with description :=
            { (σ layer.surface).description with
              base_rect := (layer.anchor.take layer.size r).1 } }) s =
        (Function.update τ layer.surface
          { τ layer.surface with description :=
            { (τ layer.surface).description with
              base_rect := (layer.anchor.take layer.size r).1 } }) s := by
      intro s hs
      by_cases hsw : s = layer.surface
      · subst hsw
        simp [Function.update_same, hw]
      · rw [Function.update_noteq hsw, Function.update_noteq hsw]
        exact hag s (by simp [hs])
    obtain ⟨dEq, vEq⟩ := ih (layer.anchor.take layer.size r).2 _ _ hagtail
    constructor
    · simp only [Wm.reassign_layers]
      rw [dEq, hw]
    · intro s hs
      simp only [List.map_cons, List.mem_cons] at hs
      simp only [Wm.reassign_layers]
      by_cases hr : s ∈ rest.map (fun l => l.surface)
      · exact vEq s hr
      · have hsw : s = layer.surface := by
          cases hs with
          | inl h => exact h
          | inr h => exact absurd h hr
        subst hsw
        rw [Wm.reassign_layers_frame rest _ _ _ hr, Wm.reassign_layers_frame rest _ _ _ hr,
          Function.update_same, Function.update_same, hw]

/-- Running the layer loop a second time on its own output produces the
same surfaces, the same residual rectangle, and no dirty surfaces. -/
theorem Wm.reassign_layers_idem (L : List Wm.ShellLayer) :
    ∀ (r : Rectangle) (σ : Nat → Wm.Surface),
      (L.map (fun l => l.surface)).Nodup →
      Wm.reassign_layers L r ((Wm.reassign_layers L r σ).1) =
        ((Wm.reassign_layers L r σ).1, (Wm.reassign_layers L r σ).2.1, []) := by
  induction L with
  | nil => intro r σ _; rfl
  | cons layer rest ih =>
    intro r σ hnd
    simp only [List.map_cons, List.nodup_cons] at hnd
    obtain ⟨hw, hnd'⟩ := hnd
    -- Name the slice, the head write, and the state after the tail.
    set pr := layer.anchor.take layer.size r with hpr
    set v : Wm.Surface := { σ layer.surface with description :=
      { (σ layer.surface).description with base_rect := pr.1 } } with hv
    set σa := Function.update σ layer.surface v with hσa
    set σb := (Wm.reassign_layers rest pr.2 σa).1 with hσb
    have hσbw : σb layer.surface = v := by
      rw [hσb, Wm.reassign_layers_frame rest _ _ _ hw, hσa, Function.update_same]
    have hbase : (σb layer.surface).description.base_rect = pr.1 := by rw [hσbw]
    have htail := ih pr.2 σa hnd'
    rw [← hσb] at htail
    have hdirty : (if pr.1 ≠ (σb layer.surface).description.base_rect
        then [layer.surface] else []) = ([] : List Nat) := by
      rw [hbase]
      simp
    have hval : ({ σb layer.surface with description :=
        { (σb layer.surface).description with base_rect := pr.1 } } : Wm.Surface)
        = σb layer.surface := by
      rw [hσbw]
    have hwrite : Function.update σb layer.surface
        { σb layer.surface with description :=
          { (σb layer.surface).description with base_rect := pr.1 } } = σb := by
      rw [hval, Function.update_eq_self]
    calc Wm.reassign_layers (layer :: rest) r ((Wm.reassign_layers (layer :: rest) r σ).1)
        = ((Wm.reassign_layers rest pr.2 (Function.update σb layer.surface
            { σb layer.surface with description :=
              { (σb layer.surface).description with base_rect := pr.1 } })).1,
          (Wm.reassign_layers rest pr.2 (Function.update σb layer.surface
            { σb layer.surface with description :=
              { (σb layer.surface).description with base_rect := pr.1 } })).2.1,
          (if pr.1 ≠ (σb layer.surface).description.base_rect
            then [layer.surface] else []) ++
          (Wm.reassign_layers rest pr.2 (Function.update σb layer.surface
            { σb layer.surface with description :=
              { (σb layer.surface).description with base_rect := pr.1 } })).2.2) := rfl
      _ = ((Wm.reassign_layers (layer :: rest) r σ).1,
            (Wm.reassign_layers (layer :: rest) r σ).2.1, []) := by
          rw [hwrite, hdirty, htail]
          rfl

/-- The wallpaper step leaves non-wallpaper surfaces untouched. -/
theorem Wm.wallpaper_step_frame (wall : Option Nat) (b : Bool) (rect1 : Rectangle)
    (σ : Nat → Wm.Surface) (s : Nat) (hs : s ∉ Wm.wallIds wall) :
    (Wm.wallpaper_step wall b rect1 σ).1 s = σ s := by
  cases wall with
  | none => rfl
  | some w =>
    have hne : s ≠ w := by simpa [Wm.wallIds] using hs
    simp [Wm.wallpaper_step, Function.update_noteq hne]

/-- The wallpaper step depends on the surfaces map only through the
wallpaper surface. -/
theorem Wm.wallpaper_step_agree (wall : Option Nat) (b : Bool) (rect1 : Rectangle)
    (σ τ : Nat → Wm.Surface) (hag : ∀ s ∈ Wm.wallIds wall, σ s = τ s) :
    (Wm.wallpaper_step wall b rect1 σ).2 = (Wm.wallpaper_step wall b rect1 τ).2 ∧
    ∀ s ∈ Wm.wallIds wall,
      (Wm.wallpaper_step wall b rect1 σ).1 s = (Wm.wallpaper_step wall b rect1 τ).1 s := by
  cases wall with
  | none => exact ⟨rfl, fun s hs => by simp [Wm.wallIds] at hs⟩
  | some w =>
    have hw : σ w = τ w := hag w (by simp [Wm.wallIds])
    constructor
    · simp only [Wm.wallpaper_step]
      rw [hw]
    · intro s hs
      have : s = w := by simpa [Wm.wallIds] using hs
      subst this
      simp only [Wm.wallpaper_step]
      rw [Function.update_same, Function.update_same, hw]

/-- Running the wallpaper step a second time on its own output changes
nothing and marks nothing dirty. -/
theorem Wm.wallpaper_step_idem (wall : Option Nat) (b : Bool) (rect1 : Rectangle)
    (σ : Nat → Wm.Surface) :
    Wm.wallpaper_step wall b rect1 ((Wm.wallpaper_step wall b rect1 σ).1) =
      ((Wm.wallpaper_step wall b rect1 σ).1, []) := by
  cases wall with
  | none => rfl
  | some w =>
    set σ' := (Wm.wallpaper_step (some w) b rect1 σ).1 with hσ'
    have hσ'w : σ' w = { σ w with description :=
        { (σ w).description with base_rect := rect1, visible := b } } :=
      Function.update_same w _ σ
    have hd : ({ (σ' w).description with base_rect := rect1, visible := b } :
        SurfaceDescription) = (σ' w).description := by
      rw [hσ'w]
    have hval : ({ σ' w with description :=
        { (σ' w).description with base_rect := rect1, visible := b } } : Wm.Surface)
        = σ' w := by
      rw [hσ'w]
    calc Wm.wallpaper_step (some w) b rect1 σ'
        = (Function.update σ' w { σ' w with description :=
            { (σ' w).description with base_rect := rect1, visible := b } },
          if (σ' w).description ≠
              { (σ' w).description with base_rect := rect1, visible := b }
            then [w] else []) := rfl
      _ = (σ', []) := by
          rw [hval, Function.update_eq_self, hd]
          simp

/-- The root step leaves surfaces outside the root tree untouched. -/
theorem Wm.root_step_frame (cfg : Wm.ManagerConfig)
    (root : Option (Wm.ContainerKind × List Wm.ShellNode)) (rect1 : Rectangle)
    (σ : Nat → Wm.Surface) (s : Nat) (hs : s ∉ Wm.rootIds root) :
    (Wm.root_step cfg root rect1 σ).1 s = σ s := by
  cases root with
  | none => rfl
  | some kc =>
    exact Wm.reassign_node_frame cfg (.container kc.1 kc.2) rect1 σ s
      (by simpa [Wm.nodeIds, Wm.rootIds] using hs)

/-- Running the root step a second time on its own output changes nothing
and marks nothing dirty. -/
theorem Wm.root_step_idem (cfg : Wm.ManagerConfig)
    (root : Option (Wm.ContainerKind × List Wm.ShellNode)) (rect1 : Rectangle)
    (σ : Nat → Wm.Surface) (hnd : (Wm.rootIds root).Nodup) :
    Wm.root_step cfg root rect1 ((Wm.root_step cfg root rect1 σ).1) =
      ((Wm.root_step cfg root rect1 σ).1, []) := by
  cases root with
  | none => rfl
  | some kc =>
    exact Wm.reassign_node_idem cfg (.container kc.1 kc.2) rect1 σ
      (by simpa [Wm.nodeIds, Wm.rootIds] using hnd)

/-- C6: calling `reassign_areas` a second time with no intervening change
to the shell, surfaces or configuration marks no surface dirty and sends no
event: after the first completed pass, every stored description equals the
newly computed one.  The hypotheses record the manager's invariants: every
container is non-empty (`shellWF` — the source indexes `children.len() - 1`
and would panic otherwise) and each surface occupies one structural
position (`create_surface` attaches each surface exactly once). -/
theorem c6_reassign_idempotent (cfg : Wm.ManagerConfig) (sh : Wm.Shell)
    (σ : Nat → Wm.Surface) (_hwf : Wm.shellWF sh = true)
    (hnd : (Wm.shellIds sh).Nodup) :
    Wm.reassign_pass cfg sh ((Wm.reassign_pass cfg sh σ).1) =
      ((Wm.reassign_pass cfg sh σ).1, []) := by
  have hnd' := hnd
  simp only [Wm.shellIds] at hnd'
  obtain ⟨hab, hc, hdisj2⟩ := List.nodup_append.mp hnd'
  obtain ⟨ha, hb, hdisj1⟩ := List.nodup_append.mp hab
  set rect0 := (Rectangle.mk ⟨0, 0⟩ Wm.fbSize).inset cfg.inset with hrect0
  set σ1 := (Wm.reassign_layers sh.layers rect0 σ).1 with hσ1
  set rect1 := (Wm.reassign_layers sh.layers rect0 σ).2.1 with hrect1
  set σ2 := (Wm.wallpaper_step sh.wallpaper sh.root.isNone rect1 σ1).1 with hσ2
  set σ3 := (Wm.root_step cfg sh.root rect1 σ2).1 with hσ3
  -- The final state agrees with the intermediate states on the regions the
  -- later steps do not touch.
  have h31 : ∀ s ∈ sh.layers.map (fun l => l.surface), σ3 s = σ1 s := by
    intro s hs
    have hsw : s ∉ Wm.wallIds sh.wallpaper := fun hmem => hdisj1 hs hmem
    have hsr : s ∉ Wm.rootIds sh.root := fun hmem =>
      hdisj2 (List.mem_append_left _ hs) hmem
    rw [hσ3, Wm.root_step_frame cfg sh.root rect1 σ2 s hsr, hσ2,
      Wm.wallpaper_step_frame sh.wallpaper sh.root.isNone rect1 σ1 s hsw]
  have h32 : ∀ s ∈ Wm.wallIds sh.wallpaper, σ3 s = σ2 s := by
    intro s hs
    have hsr : s ∉ Wm.rootIds sh.root := fun hmem =>
      hdisj2 (List.mem_append_right _ hs) hmem
    rw [hσ3, Wm.root_step_frame cfg sh.root rect1 σ2 s hsr]
  -- Second pass, layer loop.
  have hidem := Wm.reassign_layers_idem sh.layers rect0 σ ha
  rw [← hσ1, ← hrect1] at hidem
  have hL2 : Wm.reassign_layers sh.layers rect0 σ3 = (σ3, rect1, []) := by
    obtain ⟨dEq, vEq⟩ := Wm.reassign_layers_agree sh.layers rect0 σ3 σ1 h31
    refine Prod.ext ?_ (Prod.ext ?_ ?_)
    · funext s
      by_cases hs : s ∈ sh.layers.map (fun l => l.surface)
      · rw [vEq s hs, hidem]
        exact (h31 s hs).symm
      · rw [Wm.reassign_layers_frame sh.layers rect0 σ3 s hs]
    · rw [Wm.reassign_layers_rect sh.layers rect0 σ3 σ]
    · rw [dEq, hidem]
  -- Second pass, wallpaper step.
  have hidemW := Wm.wallpaper_step_idem sh.wallpaper sh.root.isNone rect1 σ1
  rw [← hσ2] at hidemW
  have hW2 : Wm.wallpaper_step sh.wallpaper sh.root.isNone rect1 σ3 = (σ3, []) := by
    obtain ⟨dEqW, vEqW⟩ :=
      Wm.wallpaper_step_agree sh.wallpaper sh.root.isNone rect1 σ3 σ2 h32
    refine Prod.ext ?_ ?_
    · funext s
      by_cases hs : s ∈ Wm.wallIds sh.wallpaper
      · rw [vEqW s hs, hidemW]
        exact (h32 s hs).symm
      · rw [Wm.wallpaper_step_frame sh.wallpaper sh.root.isNone rect1 σ3 s hs]
    · rw [dEqW, hidemW]
  -- Second pass, root step.
  have hR2 := Wm.root_step_idem cfg sh.root rect1 σ2 hc
  rw [← hσ3] at hR2
  -- Assemble the second pass.
  show Wm.reassign_pass cfg sh σ3 = (σ3, [])
  have hunfold : Wm.reassign_pass cfg sh σ3 =
      ((Wm.root_step cfg sh.root (Wm.reassign_layers sh.layers rect0 σ3).2.1
          ((Wm.wallpaper_step sh.wallpaper sh.root.isNone
            (Wm.reassign_layers sh.layers rect0 σ3).2.1
            (Wm.reassign_layers sh.layers rect0 σ3).1).1)).1,
        (Wm.reassign_layers sh.layers rect0 σ3).2.2 ++
          (Wm.wallpaper_step sh.wallpaper sh.root.isNone
            (Wm.reassign_layers sh.layers rect0 σ3).2.1
            (Wm.reassign_layers sh.layers rect0 σ3).1).2 ++
          (Wm.root_step cfg sh.root (Wm.reassign_layers sh.layers rect0 σ3).2.1
            ((Wm.wallpaper_step sh.wallpaper sh.root.isNone
              (Wm.reassign_layers sh.layers rect0 σ3).2.1
              (Wm.reassign_layers sh.layers rect0 σ3).1).1)).2) := rfl
  rw [hunfold, hL2]
  show ((Wm.root_step cfg sh.root rect1
      ((Wm.wallpaper_step sh.wallpaper sh.root.isNone rect1 σ3).1)).1,
    [] ++ (Wm.wallpaper_step sh.wallpaper sh.root.isNone rect1 σ3).2 ++
      (Wm.root_step cfg sh.root rect1
        ((Wm.wallpaper_step sh.wallpaper sh.root.isNone rect1 σ3).1)).2) = (σ3, [])
  rw [hW2]
  show ((Wm.root_step cfg sh.root rect1 σ3).1,
    [] ++ [] ++ (Wm.root_step cfg sh.root rect1 σ3).2) = (σ3, [])
  rw [hR2]
  rfl

/-- C6 witness: a concrete shell with one layer, a wallpaper and a root
splitting two surfaces, under the configuration `main` uses: the second
reassignment pass marks nothing dirty and changes nothing. -/
theorem c6_reassign_idempotent_witness :
    Wm.shellWF Wm.c6shell = true ∧
    (Wm.shellIds Wm.c6shell).Nodup ∧
    Wm.reassign_pass Wm.c6cfg Wm.c6shell
        ((Wm.reassign_pass Wm.c6cfg Wm.c6shell Wm.c6surfaces).1) =
      ((Wm.reassign_pass Wm.c6cfg Wm.c6shell Wm.c6surfaces).1, []) :=
  ⟨by simp [Wm.shellWF, Wm.c6shell, Wm.listWF, Wm.nodeWF],
    by decide,
    c6_reassign_idempotent Wm.c6cfg Wm.c6shell Wm.c6surfaces
      (by simp [Wm.shellWF, Wm.c6shell, Wm.listWF, Wm.nodeWF]) (by decide)⟩

end Rmox
